import Mathlib

/-!
# Verification of the approve robot (robot-gitee-approve)

A shallow embedding of the approval-determination engine of the
robot-gitee-approve repository: the command parser (`commandRegex`), the
comment aggregation and chronological ordering, the approver state machine
(`addApprovers`), the human-override detection (`humanAddedApproved`), the
notification suppression (`updateNotification`) and the label reconciliation
performed by `handle`, together with the event gates of `robot.go` and the
configuration translation of the main package.

Strings are processed over `List Char` (Go's regexp and `strings` operations
are embedded as structural recursions), timestamps are `Nat`, and the remote
client's fetches are `Except String` values.  The `approvers` package of the
repository is not part of the sources at hand; its data and operations are
modelled from the specification and marked as such in their doc comments.
-/

/-! ## String utilities (embedding Go's strings/regexp primitives) -/

/-- Splits a character list at every occurrence of `sep` (auxiliary). -/
def splitOnCharAux (sep : Char) : List Char → List Char → List (List Char)
  | [], acc => [acc.reverse]
  | c :: rest, acc =>
    if c = sep then acc.reverse :: splitOnCharAux sep rest []
    else splitOnCharAux sep rest (c :: acc)

/-- Splits a character list at every occurrence of `sep`. -/
def splitOnChar (sep : Char) (l : List Char) : List (List Char) :=
  splitOnCharAux sep l []

/-- The lines of a body, as cut by `(?m)^` anchors of Go's regexp: positions
after each newline. -/
def splitLines (l : List Char) : List (List Char) := splitOnChar '\n' l

/-- Character class `\s` of Go's regexp: `[\t\n\f\r ]`. -/
def goRegexSpace (c : Char) : Bool :=
  c = '\t' || c = '\n' || c = '\x0c' || c = '\r' || c = ' '

/-- The ASCII white space recognized by Go's `strings.TrimSpace`
(`\t`, `\n`, `\v`, `\f`, `\r`, space). -/
def goTrimmableSpace (c : Char) : Bool :=
  c = '\t' || c = '\n' || c = '\x0b' || c = '\x0c' || c = '\r' || c = ' '

/-- Embeds `strings.TrimSpace`. -/
def trimChars (l : List Char) : List Char :=
  ((l.dropWhile goTrimmableSpace).reverse.dropWhile goTrimmableSpace).reverse

/-- Embeds `strings.ToUpper` (on the ASCII alphabet used by the commands). -/
def toUpperChars (l : List Char) : List Char := l.map Char.toUpper

/-- Embeds `strings.ToLower` (on the ASCII alphabet used by the arguments). -/
def toLowerChars (l : List Char) : List Char := l.map Char.toLower

/-- Embeds `strings.Contains sub` on character lists: some suffix of `l`
starts with `sub`. -/
def listContainsSub (sub : List Char) : List Char → Bool
  | [] => sub.isEmpty
  | c :: rest => sub.isPrefixOf (c :: rest) || listContainsSub sub rest

/-- Embeds `strings.Contains s sub`. -/
def strContains (s sub : String) : Bool := listContainsSub sub.data s.data

/-- Case-insensitive string prefix check (for the `(?i)` notification regex). -/
def ciStartsWith (s p : String) : Bool :=
  (toUpperChars p.data).isPrefixOf (toUpperChars s.data)

/-- Numeric value of a digit run (for the `(\d+)` capture groups). -/
def digitsVal (l : List Char) : Nat :=
  l.foldl (fun n c => 10 * n + (c.toNat - '0'.toNat)) 0

/-! ## Constants of `approve/approve.go` -/

/-- `approveCommand` of approve/approve.go. -/
def approveCommand : String := "APPROVE"

/-- `cancelArgument` of approve/approve.go. -/
def cancelArgument : String := "cancel"

/-- `lgtmCommand` of approve/approve.go. -/
def lgtmCommand : String := "LGTM"

/-- `noIssueArgument` of approve/approve.go. -/
def noIssueArgument : String := "no-issue"

/-- `labels.Approved` of k8s.io/test-infra/prow/labels, the approval label
name used throughout `handle`. -/
def labelsApproved : String := "approved"

/-- `deprecatedBotNames` of approve/approve.go: retired predecessor bots. -/
def deprecatedBotNames : List String := ["k8s-merge-robot", "openshift-merge-robot"]

/-- `isDeprecatedBot` of approve/approve.go. -/
def isDeprecatedBot (login : String) : Bool := deprecatedBotNames.contains login

/-- `github.ReviewStateApproved`. -/
def reviewStateApproved : String := "APPROVED"

/-- `github.ReviewStateChangesRequested`. -/
def reviewStateChangesRequested : String := "CHANGES_REQUESTED"

/-- `github.ReviewStateDismissed`. -/
def reviewStateDismissed : String := "DISMISSED"

/-- `github.IssueActionLabeled`. -/
def issueActionLabeled : String := "labeled"

/-! ## Command parsing: `commandRegex = (?m)^/([^\s]+)[\t ]*([^\n\r]*)` -/

/-- One line matched against `^/([^\s]+)[\t ]*([^\n\r]*)`: returns the
command-name and argument captures when the line matches. -/
def parseCommandLine : List Char → Option (List Char × List Char)
  | '/' :: rest =>
    let cmd := rest.takeWhile (fun c => !(goRegexSpace c))
    if cmd.isEmpty then none
    else
      let afterCmd := rest.drop cmd.length
      let afterGap := afterCmd.dropWhile (fun c => c = '\t' || c = ' ')
      some (cmd, afterGap.takeWhile (fun c => c ≠ '\r'))
  | _ => none

/-- All `commandRegex` matches of a comment body, in order:
`FindAllStringSubmatch(body, -1)` with the two capture groups. -/
def parseCommands (body : String) : List (List Char × List Char) :=
  (splitLines body.data).filterMap parseCommandLine

/-! ## Data model: unified comments and their three sources -/

/-- `comment` of approve/approve.go: the unified comment shape. -/
structure Comment where
  body : String
  author : String
  createdAt : Nat
  htmlURL : String
  id : Nat
  reviewState : String
deriving Repr, DecidableEq

/-- `github.IssueComment`, restricted to the fields read by the robot. -/
structure IssueComment where
  id : Nat
  body : String
  user : String
  htmlURL : String
  createdAt : Nat
deriving Repr, DecidableEq

/-- `github.ReviewComment`, restricted to the fields read by the robot. -/
structure ReviewComment where
  id : Nat
  body : String
  user : String
  htmlURL : String
  createdAt : Nat
deriving Repr, DecidableEq

/-- `github.Review`, restricted to the fields read by the robot. -/
structure Review where
  id : Nat
  body : String
  user : String
  htmlURL : String
  submittedAt : Nat
  state : String
deriving Repr, DecidableEq

/-- `github.Label`, restricted to the fields read by the robot. -/
structure Label where
  name : String
deriving Repr, DecidableEq

/-- `github.ListedIssueEvent`, restricted to the fields read by
`humanAddedApproved`: `event.Event`, `event.Label.Name`, `event.Actor.Login`. -/
structure ListedIssueEvent where
  event : String
  labelName : String
  actorLogin : String
deriving Repr, DecidableEq

/-- `commentFromIssueComment` of approve/approve.go. -/
def commentFromIssueComment (ic : IssueComment) : Comment :=
  { body := ic.body, author := ic.user, createdAt := ic.createdAt,
    htmlURL := ic.htmlURL, id := ic.id, reviewState := "" }

/-- `commentFromReviewComment` of approve/approve.go. -/
def commentFromReviewComment (rc : ReviewComment) : Comment :=
  { body := rc.body, author := rc.user, createdAt := rc.createdAt,
    htmlURL := rc.htmlURL, id := rc.id, reviewState := "" }

/-- `commentFromReview` of approve/approve.go. -/
def commentFromReview (r : Review) : Comment :=
  { body := r.body, author := r.user, createdAt := r.submittedAt,
    htmlURL := r.htmlURL, id := r.id, reviewState := r.state }

/-- `state` of approve/approve.go: the per-invocation PR context. -/
structure PRState where
  org : String
  repo : String
  branch : String
  number : Nat
  body : String
  author : String
  assignees : List String
  htmlURL : String
deriving Repr, DecidableEq

/-! ## `plugins.Approve` configuration (approve/plugins) -/

/-- `plugins.Approve`: per-repository approve configuration.  Unset optional
fields are `none` (Go `nil` pointers), unset booleans are `false`. -/
structure Approve where
  repos : List String := []
  issueRequired : Bool := false
  deprecatedImplicitSelfApprove : Option Bool := none
  requireSelfApproval : Option Bool := none
  lgtmActsAsApprove : Bool := false
  deprecatedReviewActsAsApprove : Option Bool := none
  ignoreReviewState : Option Bool := none
deriving Repr, DecidableEq

/-- `Approve.HasSelfApproval` (the deprecation warning is only a log line). -/
def Approve.hasSelfApproval (a : Approve) : Bool :=
  match a.deprecatedImplicitSelfApprove with
  | some v => v
  | none =>
    match a.requireSelfApproval with
    | some v => !v
    | none => true

/-- `Approve.ConsiderReviewState` (the deprecation warning is only a log line). -/
def Approve.considerReviewState (a : Approve) : Bool :=
  match a.deprecatedReviewActsAsApprove with
  | some v => v
  | none =>
    match a.ignoreReviewState with
    | some v => !v
    | none => true

/-! ## The `approvers` package, modelled from the spec

The repository imports its own `approve/approvers` package, whose sources are
not among the files at hand; the definitions in this section are therefore
modelled from the specification's description of the approver state machine,
the ownership coverage resolver and the notification composer. -/

/-- Modelled from the spec: one approver entry of the `approvers` package's
state — an identity with provenance (the comment or review URL), the no-issue
waiver flag, and how the approval was given (command, LGTM, or author
self-approval). -/
structure Approval where
  login : String
  reference : String
  noIssue : Bool
  how : String
deriving Repr, DecidableEq

/-- Modelled from the spec: the `approvers.Approvers` accumulator — the set of
approver identities with provenance, the separately tracked LGTM identities,
the suggested-approver (assignee) hints, the associated issue, the
issue-required flag, the human-override flag, plus the owners data and changed
files the coverage resolver consumes. -/
structure Approvers where
  filenames : List String
  ownersData : List (String × List String)
  approvers : List Approval := []
  lgtmers : List Approval := []
  assignees : List String := []
  associatedIssue : Nat := 0
  requireIssue : Bool := false
  manuallyApproved : Bool := false
deriving Repr, DecidableEq

/-- Modelled from the spec: `approvers.NewApprovers(NewOwners(log, filenames,
repo, seed))` — a fresh accumulator over the changed files and owners data. -/
def newApprovers (filenames : List String) (ownersData : List (String × List String)) :
    Approvers :=
  { filenames := filenames, ownersData := ownersData }

/-- Modelled from the spec: `Approvers.AddApprover` records `login` as an
explicit-command approver (replacing any earlier entry for the same login). -/
def Approvers.addApprover (ap : Approvers) (login reference : String) (noIssue : Bool) :
    Approvers :=
  { ap with approvers :=
      ap.approvers.filter (fun a => a.login ≠ login) ++
        [{ login := login, reference := reference, noIssue := noIssue, how := "Approve" }] }

/-- Modelled from the spec: `Approvers.AddLGTMer` records `login` in the LGTM
identity set (replacing any earlier entry for the same login). -/
def Approvers.addLGTMer (ap : Approvers) (login reference : String) (noIssue : Bool) :
    Approvers :=
  { ap with lgtmers :=
      ap.lgtmers.filter (fun a => a.login ≠ login) ++
        [{ login := login, reference := reference, noIssue := noIssue, how := "LGTM" }] }

/-- Modelled from the spec: `Approvers.AddAuthorSelfApprover` records the PR
author as an approver with self-approval provenance. -/
def Approvers.addAuthorSelfApprover (ap : Approvers) (login reference : String)
    (noIssue : Bool) : Approvers :=
  { ap with approvers :=
      ap.approvers.filter (fun a => a.login ≠ login) ++
        [{ login := login, reference := reference, noIssue := noIssue, how := "Author" }] }

/-- Modelled from the spec: `Approvers.RemoveApprover` removes the author from
the approver set regardless of which command added them (command approvals and
LGTM approvals alike). -/
def Approvers.removeApprover (ap : Approvers) (login : String) : Approvers :=
  { ap with
      approvers := ap.approvers.filter (fun a => a.login ≠ login),
      lgtmers := ap.lgtmers.filter (fun a => a.login ≠ login) }

/-- Modelled from the spec: `Approvers.AddAssignees` records a login as a
suggested approver hint only — never as an approver. -/
def Approvers.addAssignees (ap : Approvers) (login : String) : Approvers :=
  if ap.assignees.contains login then ap
  else { ap with assignees := ap.assignees ++ [login] }

/-- The identities currently counted as approving (command approvers, author
self-approvals and LGTM identities folded together). -/
def Approvers.approverLogins (ap : Approvers) : List String :=
  (ap.approvers ++ ap.lgtmers).map (fun a => a.login)

/-- Whether `login` is in the final approver set. -/
def Approvers.isApprover (ap : Approvers) (login : String) : Bool :=
  ap.approverLogins.contains login

/-- Modelled from the spec: the directory candidates for a file's ownership
scope, from the file's own directory walking upward to the repository root. -/
def dirCandidates (file : String) : List String :=
  let parts := (splitOnChar '/' file.data).dropLast
  ((List.range (parts.length + 1)).reverse).map
    (fun k => String.mk (List.intercalate ['/'] (parts.take k)))

/-- Modelled from the spec: the approver set of the nearest enclosing
directory that declares one; a file with no declaring directory gets the
empty set and is never covered. -/
def nearestApprovers (ownersData : List (String × List String)) (file : String) :
    List String :=
  (((dirCandidates file).filterMap
      (fun d => (ownersData.find? (fun kv => kv.1 = d)).map (fun kv => kv.2))).head?).getD []

/-- Modelled from the spec: a file is covered iff the accumulated approver set
intersects the nearest declaring directory's approver set. -/
def Approvers.fileCovered (ap : Approvers) (file : String) : Bool :=
  (nearestApprovers ap.ownersData file).any (fun o => ap.approverLogins.contains o)

/-- Modelled from the spec: coverage plus the issue-requirement condition —
all changed files covered (vacuously for an empty PR), and no issue required,
or an associated issue found, or an approver who waived the requirement. -/
def Approvers.requirementsMet (ap : Approvers) : Bool :=
  ap.filenames.all ap.fileCovered &&
    (!ap.requireIssue || ap.associatedIssue != 0 ||
      (ap.approvers ++ ap.lgtmers).any (fun a => a.noIssue))

/-- Modelled from the spec: `Approvers.IsApproved` — if the human-override
flag is set, the verdict is approved regardless of computed coverage. -/
def Approvers.isApproved (ap : Approvers) : Bool :=
  ap.manuallyApproved || ap.requirementsMet

/-- Modelled from the spec: `approvers.ApprovalNotificationName`, the fixed
marker token opening every status comment. -/
def approvalNotificationName : String := "APPROVALNOTIFIER"

/-- Modelled from the spec: the body of the canonical status comment — the
marker token, then the verdict, the approvers, the uncovered files, the
issue-association status and the command-help link. -/
def messageRender (ap : Approvers) (linkURL org repo branch commandURL : String) :
    String :=
  "[" ++ approvalNotificationName ++ "] " ++
    ((if ap.isApproved then "This PR is APPROVED" else "This PR is NOT APPROVED") ++
    "\n\nrepository: " ++ linkURL ++ "/" ++ org ++ "/" ++ repo ++ " branch: " ++ branch ++
    "\napprovers: " ++ String.intercalate ", " ap.approverLogins ++
    "\nfiles still needing approval: " ++
      String.intercalate ", " (ap.filenames.filter (fun f => !ap.fileCovered f)) ++
    "\nassociated issue: " ++ toString ap.associatedIssue ++
    "\ncommands help: " ++ commandURL)

/-- Modelled from the spec: `approvers.GetMessage` renders the single
canonical status comment. -/
def getMessage (ap : Approvers) (linkURL org repo branch commandURL : String) :
    Option String :=
  some (messageRender ap linkURL org repo branch commandURL)

/-! ## `approve/approve.go`: matchers, associated issue, human override -/

/-- `findAssociatedIssue`: leftmost match of `(?:ORG/[^/]+/issues/|#)(\d+)` in
the PR body — here the attempt of the first (URL) alternative at one position. -/
def matchOrgIssueAt (org : List Char) (cs : List Char) : Option Nat :=
  if org.isPrefixOf cs then
    match cs.drop org.length with
    | '/' :: rest =>
      let seg := rest.takeWhile (fun c => c ≠ '/')
      if seg.isEmpty then none
      else
        let rest2 := rest.drop seg.length
        if ("/issues/".data).isPrefixOf rest2 then
          let ds := (rest2.drop "/issues/".length).takeWhile Char.isDigit
          if ds.isEmpty then none else some (digitsVal ds)
        else none
    | _ => none
  else none

/-- `findAssociatedIssue`: the attempt of the second (`#`) alternative at one
position. -/
def matchHashIssueAt : List Char → Option Nat
  | '#' :: rest =>
    let ds := rest.takeWhile Char.isDigit
    if ds.isEmpty then none else some (digitsVal ds)
  | _ => none

/-- `findAssociatedIssue`: leftmost-first scan over the body. -/
def findIssueScan (org : List Char) : List Char → Nat
  | [] => 0
  | c :: rest =>
    match matchOrgIssueAt org (c :: rest) with
    | some n => n
    | none =>
      match matchHashIssueAt (c :: rest) with
      | some n => n
      | none => findIssueScan org rest

/-- `findAssociatedIssue` of approve/approve.go: associated issue number from
the PR body, or 0 when none is found. -/
def findAssociatedIssue (body org : String) : Nat := findIssueScan org.data body.data

/-- `isApprovalCommand` of approve/approve.go. -/
def isApprovalCommand (botName : String) (lgtmActsAsApprove : Bool) (c : Comment) :
    Bool :=
  if c.author = botName ∨ isDeprecatedBot c.author then false
  else
    (parseCommands c.body).any (fun nc =>
      let cmd := toUpperChars nc.1
      (cmd == lgtmCommand.data && lgtmActsAsApprove) || cmd == approveCommand.data)

/-- `isApprovalState` of approve/approve.go: the review state is uppercased
here (webhooks deliver it lowercase) before comparison with the constants. -/
def isApprovalState (botName : String) (reviewActsAsApprove : Bool) (c : Comment) :
    Bool :=
  if c.author = botName ∨ isDeprecatedBot c.author then false
  else
    let reviewState := String.mk (toUpperChars c.reviewState.data)
    reviewActsAsApprove &&
      (reviewState == reviewStateApproved ||
       reviewState == reviewStateChangesRequested ||
       reviewState == reviewStateDismissed)

/-- `approvalMatcher` of approve/approve.go. -/
def approvalMatcher (botName : String) (lgtmActsAsApprove reviewActsAsApprove : Bool)
    (c : Comment) : Bool :=
  isApprovalCommand botName lgtmActsAsApprove c ||
    isApprovalState botName reviewActsAsApprove c

/-- `notificationMatcher` of approve/approve.go: a comment of the bot (or a
retired predecessor) whose body matches `notificationRegex`, i.e. starts with
the case-insensitive `[APPROVALNOTIFIER]` marker. -/
def notificationMatcher (botName : String) (c : Comment) : Bool :=
  if c.author ≠ botName ∧ ¬ isDeprecatedBot c.author then false
  else ciStartsWith c.body ("[" ++ approvalNotificationName ++ "]")

/-- `updateNotification` of approve/approve.go: renders the message and
suppresses it when a previous notification already contains it. -/
def updateNotification (linkURL org repo branch commandURL : String)
    (latestNotification : Option Comment) (ap : Approvers) : Option String :=
  match getMessage ap linkURL org repo branch commandURL with
  | none => none
  | some m =>
    match latestNotification with
    | some ln => if strContains ln.body m then none else some m
    | none => some m

/-- The last `labeled`-with-`approved` event of the history, as selected by
the loop of `humanAddedApproved` (the zero value, reported as login `""`,
when no event matches). -/
def lastApprovedLabelAdd (events : List ListedIssueEvent) :
    Option ListedIssueEvent :=
  (events.filter (fun e =>
    e.event == issueActionLabeled && e.labelName == labelsApproved)).getLast?

/-- `findOut` inside `humanAddedApproved` of approve/approve.go: false when
the label is absent, when the event history cannot be listed, or when the most
recent adder of the approval label is unknown, the bot itself, or a retired
predecessor. -/
def humanAddedApprovedFindOut (hasLabel : Bool)
    (events : Except String (List ListedIssueEvent)) (botName : String) : Bool :=
  if !hasLabel then false
  else
    match events with
    | .error _ => false
    | .ok evs =>
      let lastLogin :=
        match lastApprovedLabelAdd evs with
        | none => ""
        | some e => e.actorLogin
      if lastLogin = "" ∨ lastLogin = botName ∨ isDeprecatedBot lastLogin then false
      else true

/-- The memo cell of the closure returned by `humanAddedApproved`
(`var cache *bool`). -/
structure LazyBool where
  cache : Option Bool
deriving Repr, DecidableEq

/-- One invocation of the closure returned by `humanAddedApproved`: yields the
value, the updated cache, and whether `findOut` was computed by this call. -/
def LazyBool.force (compute : Unit → Bool) (st : LazyBool) :
    Bool × LazyBool × Bool :=
  match st.cache with
  | some v => (v, st, false)
  | none =>
    let v := compute ()
    (v, ⟨some v⟩, true)

/-! ## `addApprovers`: the approver state machine fold -/

/-- The body of the inner command loop of `addApprovers`: one `commandRegex`
match applied to the accumulator. -/
def processOneCommand (author : String) (c : Comment) (ap : Approvers)
    (nc : List Char × List Char) : Approvers :=
  let name := toUpperChars nc.1
  if name ≠ approveCommand.data ∧ name ≠ lgtmCommand.data then ap
  else
    let args := toLowerChars (trimChars nc.2)
    if listContainsSub cancelArgument.data args then ap.removeApprover c.author
    else
      let ap :=
        if c.author = author then
          ap.addAuthorSelfApprover c.author c.htmlURL (args = noIssueArgument.data)
        else ap
      if name = approveCommand.data then
        ap.addApprover c.author c.htmlURL (args = noIssueArgument.data)
      else
        ap.addLGTMer c.author c.htmlURL (args = noIssueArgument.data)

/-- One iteration of the outer loop of `addApprovers`: review-state effects
first (approved adds, changes-requested removes, nothing else acts), then each
command of the body in order. -/
def processComment (author : String) (reviewActsAsApprove : Bool) (ap : Approvers)
    (c : Comment) : Approvers :=
  if c.author = "" then ap
  else
    let ap :=
      if reviewActsAsApprove ∧ c.reviewState = reviewStateApproved then
        ap.addApprover c.author c.htmlURL false
      else ap
    let ap :=
      if reviewActsAsApprove ∧ c.reviewState = reviewStateChangesRequested then
        ap.removeApprover c.author
      else ap
    (parseCommands c.body).foldl (processOneCommand author c) ap

/-- `addApprovers` of approve/approve.go: folds the chronologically ordered
approval-relevant comments into the accumulator. -/
def addApprovers (ap : Approvers) (approveComments : List Comment) (author : String)
    (reviewActsAsApprove : Bool) : Approvers :=
  approveComments.foldl (processComment author reviewActsAsApprove) ap

/-! ## Chronological ordering (`sort.SliceStable` by `CreatedAt.Before`) -/

/-- The key order of the stable sort in `handle`. -/
def commentLE (a b : Comment) : Prop := a.createdAt ≤ b.createdAt

instance : DecidableRel commentLE := fun a b => Nat.decLe a.createdAt b.createdAt

instance : IsTotal Comment commentLE := ⟨fun a b => Nat.le_total a.createdAt b.createdAt⟩

instance : IsTrans Comment commentLE := ⟨fun _ _ _ h h' => Nat.le_trans h h'⟩

/-- The stable chronological sort of `handle` (`sort.SliceStable` with
`CreatedAt.Before` sorts stably by ascending creation time, which is exactly
insertion sort with the reflexive key order). -/
def sortComments (l : List Comment) : List Comment := List.insertionSort commentLE l

/-! ## `handle`: the evaluation pipeline and its external mutations -/

/-- `github.PullRequestChange`, restricted to the field read by the robot. -/
structure PullRequestChange where
  filename : String
deriving Repr, DecidableEq

/-- One external mutation issued by `handle` during reconciliation. -/
inductive Mutation where
  | deleteComment (id : Nat)
  | createComment (body : String)
  | addLabel (name : String)
  | removeLabel (name : String)
deriving Repr, DecidableEq

/-- The label reconciliation of `handle` (its final block): remove when not
approved but labelled, add when approved but unlabelled, otherwise nothing. -/
def labelMutationOps (isApproved hasApprovedLabel : Bool) : List Mutation :=
  if !isApproved then
    if hasApprovedLabel then [Mutation.removeLabel labelsApproved] else []
  else
    if !hasApprovedLabel then [Mutation.addLabel labelsApproved] else []

/-- The notification reconciliation of `handle`: when a new message is to be
posted, every previous notification is deleted and the message is created. -/
def commentMutationOps (newMessage : Option String) (notifications : List Comment) :
    List Mutation :=
  match newMessage with
  | none => []
  | some m => notifications.map (fun n => Mutation.deleteComment n.id) ++
      [Mutation.createComment m]

/-- The data `handle` reads from the client before computing (the issue-event
history is fetched lazily inside `humanAddedApproved` and may fail without
failing the evaluation, hence the `Except`). -/
structure FetchedData where
  changes : List PullRequestChange
  issueLabels : List Label
  botName : String
  issueComments : List IssueComment
  reviewComments : List ReviewComment
  reviews : List Review
  issueEvents : Except String (List ListedIssueEvent)

/-- What one evaluation computed and did. -/
structure HandleOutput where
  approversHandler : Approvers
  hasApprovedLabel : Bool
  notifications : List Comment
  newMessage : Option String
  mutations : List Mutation
deriving Repr, DecidableEq

/-- `handle`: whether the fetched labels contain the approval label. -/
def hasApprovedLabelOf (issueLabels : List Label) : Bool :=
  issueLabels.any (fun l => l.name == labelsApproved)

/-- `handle` lines 164–187: the approver accumulator as configured before any
comment is processed — associated issue, issue requirement, human-override
flag, and the author's implicit self-approval (or assignee hint). -/
def approversSetup (ownersData : List (String × List String))
    (filenames : List String) (opts : Approve) (pr : PRState)
    (hasApprovedLabel : Bool) (issueEvents : Except String (List ListedIssueEvent))
    (botName : String) : Approvers :=
  let ap := { newApprovers filenames ownersData with
    associatedIssue := findAssociatedIssue pr.body pr.org,
    requireIssue := opts.issueRequired,
    manuallyApproved :=
      humanAddedApprovedFindOut hasApprovedLabel issueEvents botName }
  if opts.hasSelfApproval then
    ap.addAuthorSelfApprover pr.author (pr.htmlURL ++ "#") false
  else
    ap.addAssignees pr.author

/-- `handle` lines 190–195: the three comment sources unified and stably
sorted by creation time. -/
def unifiedSortedComments (d : FetchedData) : List Comment :=
  sortComments
    (d.reviewComments.map commentFromReviewComment ++
      d.issueComments.map commentFromIssueComment ++
      d.reviews.map commentFromReview)

/-- `handle` line 196: the approval-relevant comments. -/
def approveCommentsOf (opts : Approve) (d : FetchedData) : List Comment :=
  (unifiedSortedComments d).filter
    (approvalMatcher d.botName opts.lgtmActsAsApprove opts.considerReviewState)

/-- `handle` lines 164–202: the fully accumulated approver state — setup,
comment fold, then the PR assignees as suggested approvers. -/
def approversAfterAll (ownersData : List (String × List String)) (opts : Approve)
    (pr : PRState) (d : FetchedData) : Approvers :=
  let ap := approversSetup ownersData (d.changes.map (fun c => c.filename)) opts pr
    (hasApprovedLabelOf d.issueLabels) d.issueEvents d.botName
  let ap := addApprovers ap (approveCommentsOf opts d) pr.author
    opts.considerReviewState
  pr.assignees.foldl (fun acc u => acc.addAssignees u) ap

/-- `handle` line 205: the bot's previous status comments among the issue
comments (in fetched order, not re-sorted). -/
def notificationsOf (d : FetchedData) : List Comment :=
  (d.issueComments.map commentFromIssueComment).filter
    (notificationMatcher d.botName)

/-- The computation of `handle` (approve/approve.go lines 131–236) after all
required reads succeeded: builds the approver state from the ordered comment
stream, decides the notification, and decides the label reconciliation. -/
def handleCore (ownersData : List (String × List String))
    (linkURL commandURL : String) (opts : Approve) (pr : PRState)
    (d : FetchedData) : HandleOutput :=
  let hasApprovedLabel := hasApprovedLabelOf d.issueLabels
  let ap := approversAfterAll ownersData opts pr d
  let notifications := notificationsOf d
  let newMessage :=
    updateNotification linkURL pr.org pr.repo pr.branch commandURL
      notifications.getLast? ap
  { approversHandler := ap,
    hasApprovedLabel := hasApprovedLabel,
    notifications := notifications,
    newMessage := newMessage,
    mutations := commentMutationOps newMessage notifications ++
      labelMutationOps ap.isApproved hasApprovedLabel }

/-- The outcome of each required read of `handle`, as returned by the client. -/
structure FetchResults where
  changes : Except String (List PullRequestChange)
  issueLabels : Except String (List Label)
  botName : Except String String
  issueComments : Except String (List IssueComment)
  reviewComments : Except String (List ReviewComment)
  reviews : Except String (List Review)
  issueEvents : Except String (List ListedIssueEvent)

/-- `fetchErr` inside `handle`: the error annotation naming the failing
operation and the (org, repo, PR number) key. -/
def fetchErrMsg (pr : PRState) (ctx msg : String) : String :=
  "failed to get " ++ ctx ++ " for " ++ pr.org ++ "/" ++ pr.repo ++ "#" ++
    toString pr.number ++ ": " ++ msg

/-- `handle` of approve/approve.go including its fetch phase: the returned
error (`none` when `handle` returns nil) and the mutations issued.  Each
failed required read aborts immediately with `fetchErr`, before any mutation;
reconciliation failures are only logged by the code, so they influence neither
component. -/
def handleTrace (ownersData : List (String × List String))
    (linkURL commandURL : String) (opts : Approve) (pr : PRState)
    (f : FetchResults) : Option String × List Mutation :=
  match f.changes with
  | .error e => (some (fetchErrMsg pr "PR file changes" e), [])
  | .ok changes =>
    match f.issueLabels with
    | .error e => (some (fetchErrMsg pr "issue labels" e), [])
    | .ok issueLabels =>
      match f.botName with
      | .error e => (some (fetchErrMsg pr "bot name" e), [])
      | .ok botName =>
        match f.issueComments with
        | .error e => (some (fetchErrMsg pr "issue comments" e), [])
        | .ok issueComments =>
          match f.reviewComments with
          | .error e => (some (fetchErrMsg pr "review comments" e), [])
          | .ok reviewComments =>
            match f.reviews with
            | .error e => (some (fetchErrMsg pr "reviews" e), [])
            | .ok reviews =>
              (none,
                (handleCore ownersData linkURL commandURL opts pr
                  { changes := changes, issueLabels := issueLabels,
                    botName := botName, issueComments := issueComments,
                    reviewComments := reviewComments, reviews := reviews,
                    issueEvents := f.issueEvents }).mutations)

/-! ## The main package: event gates and configuration translation -/

/-- `isApproveCommand` of approve.go (main package): does a comment body carry
an `/approve` (or, when enabled, `/lgtm`) command. -/
def isApproveCommand (comment : String) (lgtmActsAsApprove : Bool) : Bool :=
  (parseCommands comment).any (fun nc =>
    let cmd := toUpperChars nc.1
    cmd == approveCommand.data || (cmd == lgtmCommand.data && lgtmActsAsApprove))

/-- The gate of `robot.handleNoteEvent` (robot.go lines 74–91): the evaluation
runs only for a created comment on a pull request, from someone other than the
bot, whose body passes `isApproveCommand` with LGTM-as-approve hard-coded to
`false`. -/
def noteEventTriggers (isCreatingCommentEvent isPullRequest : Bool)
    (botName commenter : String) (commentBody : String) : Bool :=
  isCreatingCommentEvent && isPullRequest && !(botName == commenter) &&
    isApproveCommand commentBody false

/-- `botConfig` of the main package, restricted to the fields read by
`transformConfig`. -/
structure BotConfig where
  requireSelfApproval : Bool
  ignoreReviewState : Bool
deriving Repr, DecidableEq

/-- `transformConfig` of the main package: only `Repos`,
`RequireSelfApproval` and `IgnoreReviewState` are set; every other field of
`plugins.Approve` keeps its zero value. -/
def transformConfig (org : String) (cfg : BotConfig) : Approve :=
  { repos := [org],
    requireSelfApproval := some cfg.requireSelfApproval,
    ignoreReviewState := some cfg.ignoreReviewState }

/-- Embeds the assignee plumbing of `robot.handle` (approve.go of the main
package, lines 43–51): the outer `assignees` slice is declared nil; inside the
`if` block the short declaration `assignees := make([]github.User, n)` creates
a new, shadowing variable which is filled from the PR's assignees and then
discarded, so the value passed to `approve.NewState` is always the outer nil
slice. -/
def buildStateAssignees (as : List String) : List String :=
  let assignees : List String := []
  if 0 < as.length then
    let _shadowed : List String := as.map (fun login => login)
    assignees
  else assignees

/-! ## The observable PR surface across evaluations (for idempotence)

The mutable outside state one evaluation reads and the next evaluation sees
again: issue comments, labels, the label-change history, review comments and
reviews.  `stepWorld` applies an evaluation's own mutations (assumed to
succeed): posting a notification first deletes every previous notification and
then creates the new comment; a label mutation also appends the corresponding
history event, performed by the bot itself. -/
structure World where
  issueComments : List IssueComment
  issueLabels : List Label
  issueEvents : List ListedIssueEvent
  reviewComments : List ReviewComment
  reviews : List Review

/-- What `handle` fetches from a world (the changed files and the bot identity
do not vary between two immediately successive runs). -/
def fetchWorld (w : World) (changes : List PullRequestChange) (botName : String) :
    FetchedData :=
  { changes := changes, issueLabels := w.issueLabels, botName := botName,
    issueComments := w.issueComments, reviewComments := w.reviewComments,
    reviews := w.reviews, issueEvents := .ok w.issueEvents }

/-- The world after one evaluation's own mutations have been applied:
`newId`, `newURL` and `t2` describe the comment the hosting service records
for the bot's newly posted notification. -/
def stepWorld (w : World) (out : HandleOutput) (botName newURL : String)
    (newId t2 : Nat) : World :=
  let issueComments :=
    match out.newMessage with
    | none => w.issueComments
    | some m =>
      (w.issueComments.filter
        (fun ic => !(notificationMatcher botName (commentFromIssueComment ic)))) ++
        [{ id := newId, body := m, user := botName, htmlURL := newURL,
           createdAt := t2 }]
  let lops := labelMutationOps out.approversHandler.isApproved out.hasApprovedLabel
  let issueLabels :=
    if lops = [Mutation.addLabel labelsApproved] then
      w.issueLabels ++ [{ name := labelsApproved }]
    else if lops = [Mutation.removeLabel labelsApproved] then
      w.issueLabels.filter (fun l => !(l.name == labelsApproved))
    else w.issueLabels
  let issueEvents :=
    if lops = [Mutation.addLabel labelsApproved] then
      w.issueEvents ++
        [(⟨issueActionLabeled, labelsApproved, botName⟩ : ListedIssueEvent)]
    else if lops = [Mutation.removeLabel labelsApproved] then
      w.issueEvents ++
        [(⟨"unlabeled", labelsApproved, botName⟩ : ListedIssueEvent)]
    else w.issueEvents
  { issueComments := issueComments, issueLabels := issueLabels,
    issueEvents := issueEvents, reviewComments := w.reviewComments,
    reviews := w.reviews }

/-! ## Membership under the approver-state operations -/

theorem beq_strings_comm (a b : String) : (a == b) = (b == a) := by
  rw [Bool.eq_iff_iff]
  simp only [beq_iff_eq]
  exact eq_comm

theorem isApprover_eq_any (ap : Approvers) (a : String) :
    ap.isApprover a = (ap.approvers ++ ap.lgtmers).any (fun x => x.login == a) := by
  unfold Approvers.isApprover Approvers.approverLogins
  induction ap.approvers ++ ap.lgtmers with
  | nil => rfl
  | cons x L ih =>
    rw [List.map_cons, List.contains_cons, List.any_cons, ih, beq_strings_comm]

theorem any_login_besides (L : List Approval) (l a : String) (h : a ≠ l) :
    (L.any fun x => decide (x.login ≠ l) && (x.login == a)) =
      L.any (fun x => x.login == a) := by
  induction L with
  | nil => rfl
  | cons x L ih =>
    rw [List.any_cons, List.any_cons, ih]
    by_cases hx : x.login = l
    · have h1 : (decide (x.login ≠ l) && (x.login == a)) = false := by
        rw [hx]
        simp
      have h2 : (x.login == a) = false := by
        rw [beq_eq_false_iff_ne, hx]
        exact fun hc => h hc.symm
      rw [h1, h2]
    · have h1 : decide (x.login ≠ l) = true := by simp [hx]
      rw [h1, Bool.true_and]

theorem any_login_besides_self (L : List Approval) (l : String) :
    (L.any fun x => decide (x.login ≠ l) && (x.login == l)) = false := by
  induction L with
  | nil => rfl
  | cons x L ih =>
    rw [List.any_cons, ih, Bool.or_false]
    by_cases hx : x.login = l
    · simp [hx]
    · simp [beq_eq_false_iff_ne.mpr hx]

theorem isApprover_addApprover (ap : Approvers) (l r : String) (n : Bool)
    (a : String) :
    (ap.addApprover l r n).isApprover a = if a = l then true else ap.isApprover a := by
  by_cases h : a = l
  · subst h
    simp [isApprover_eq_any, Approvers.addApprover, List.any_append]
  · rw [if_neg h, isApprover_eq_any, isApprover_eq_any]
    have hla : (l == a) = false := beq_eq_false_iff_ne.mpr (fun hc => h hc.symm)
    simp only [Approvers.addApprover, List.any_append, List.any_cons, List.any_nil,
      List.any_filter, hla, any_login_besides _ _ _ h]
    simp

theorem isApprover_addAuthorSelfApprover (ap : Approvers) (l r : String) (n : Bool)
    (a : String) :
    (ap.addAuthorSelfApprover l r n).isApprover a =
      if a = l then true else ap.isApprover a := by
  by_cases h : a = l
  · subst h
    simp [isApprover_eq_any, Approvers.addAuthorSelfApprover, List.any_append]
  · rw [if_neg h, isApprover_eq_any, isApprover_eq_any]
    have hla : (l == a) = false := beq_eq_false_iff_ne.mpr (fun hc => h hc.symm)
    simp only [Approvers.addAuthorSelfApprover, List.any_append, List.any_cons,
      List.any_nil, List.any_filter, hla, any_login_besides _ _ _ h]
    simp

theorem isApprover_addLGTMer (ap : Approvers) (l r : String) (n : Bool)
    (a : String) :
    (ap.addLGTMer l r n).isApprover a = if a = l then true else ap.isApprover a := by
  by_cases h : a = l
  · subst h
    simp [isApprover_eq_any, Approvers.addLGTMer, List.any_append]
  · rw [if_neg h, isApprover_eq_any, isApprover_eq_any]
    have hla : (l == a) = false := beq_eq_false_iff_ne.mpr (fun hc => h hc.symm)
    simp only [Approvers.addLGTMer, List.any_append, List.any_cons, List.any_nil,
      List.any_filter, hla, any_login_besides _ _ _ h]
    simp

theorem isApprover_removeApprover (ap : Approvers) (l : String) (a : String) :
    (ap.removeApprover l).isApprover a = if a = l then false else ap.isApprover a := by
  by_cases h : a = l
  · subst h
    rw [if_pos rfl, isApprover_eq_any]
    simp only [Approvers.removeApprover, List.any_append, List.any_filter,
      any_login_besides_self]
    rfl
  · rw [if_neg h, isApprover_eq_any, isApprover_eq_any]
    simp only [Approvers.removeApprover, List.any_append, List.any_filter,
      any_login_besides _ _ _ h]

theorem isApprover_addAssignees (ap : Approvers) (l : String) (a : String) :
    (ap.addAssignees l).isApprover a = ap.isApprover a := by
  unfold Approvers.addAssignees
  split
  · rfl
  · rfl

/-! ## The per-author action trace of `addApprovers`

Each processed comment performs a sequence of membership actions for its
author: `true` for an action that adds the author to the approver set (an
`/approve` or `/lgtm` command without a cancel argument, or an approved
review when review state is considered), `false` for an action that removes
them (a command with a cancel argument, or a changes-requested review).  A
dismissed review, or a command other than approve/lgtm, performs no action. -/

/-- The membership action of one `commandRegex` match, if any. -/
def commandEffect (nc : List Char × List Char) : Option Bool :=
  let name := toUpperChars nc.1
  if name ≠ approveCommand.data ∧ name ≠ lgtmCommand.data then none
  else some (!(listContainsSub cancelArgument.data (toLowerChars (trimChars nc.2))))

/-- The membership actions one comment performs for its author, in processing
order: review-state actions first, then the body's commands. -/
def commentEffects (reviewActsAsApprove : Bool) (c : Comment) : List Bool :=
  if c.author = "" then []
  else
    (if reviewActsAsApprove ∧ c.reviewState = reviewStateApproved then [true]
     else []) ++
    (if reviewActsAsApprove ∧ c.reviewState = reviewStateChangesRequested then
      [false]
     else []) ++
    (parseCommands c.body).filterMap commandEffect

/-- All membership actions a comment stream performs for the author `a`, in
chronological processing order. -/
def authorEffects (reviewActsAsApprove : Bool) (a : String) (cs : List Comment) :
    List Bool :=
  cs.flatMap (fun c =>
    if a = c.author then commentEffects reviewActsAsApprove c else [])

theorem getLast?_cons_getD (b d : Bool) (L : List Bool) :
    ((b :: L).getLast?).getD d = (L.getLast?).getD b := by
  cases L with
  | nil => rfl
  | cons c L =>
    rw [List.getLast?_cons_cons]
    have hne : (c :: L).getLast?.isSome := by
      rw [List.getLast?_isSome]
      exact List.cons_ne_nil c L
    obtain ⟨v, hv⟩ := Option.isSome_iff_exists.mp hne
    rw [hv]
    rfl

theorem getLast?_append_getD (L M : List Bool) (d : Bool) :
    ((L ++ M).getLast?).getD d = (M.getLast?).getD ((L.getLast?).getD d) := by
  rw [List.getLast?_append]
  cases M.getLast? <;> rfl

/-- How one optional membership action transforms membership of `a` for a
comment authored by `cAuthor`. -/
def effectStep (cAuthor a : String) (e : Option Bool) (prior : Bool) : Bool :=
  match e with
  | none => prior
  | some b => if a = cAuthor then b else prior

theorem isApprover_processOneCommand (author : String) (c : Comment)
    (ap : Approvers) (nc : List Char × List Char) (a : String) :
    (processOneCommand author c ap nc).isApprover a =
      effectStep c.author a (commandEffect nc) (ap.isApprover a) := by
  by_cases h1 : (toUpperChars nc.1 ≠ approveCommand.data ∧
      toUpperChars nc.1 ≠ lgtmCommand.data)
  · have he : commandEffect nc = none := by simp [commandEffect, h1]
    simp [processOneCommand, h1, he, effectStep]
  · by_cases h2 :
      listContainsSub cancelArgument.data (toLowerChars (trimChars nc.2)) = true
    · have he : commandEffect nc = some false := by simp [commandEffect, h1, h2]
      simp [processOneCommand, h1, h2, he, effectStep, isApprover_removeApprover]
    · have h2f : listContainsSub cancelArgument.data (toLowerChars (trimChars nc.2))
          = false := Bool.eq_false_iff.mpr h2
      have he : commandEffect nc = some true := by simp [commandEffect, h1, h2f]
      rw [he]
      by_cases h3 : c.author = author
      · by_cases h4 : toUpperChars nc.1 = approveCommand.data
        · rw [show processOneCommand author c ap nc =
              (ap.addAuthorSelfApprover c.author c.htmlURL
                (toLowerChars (trimChars nc.2) = noIssueArgument.data)).addApprover
                c.author c.htmlURL
                (toLowerChars (trimChars nc.2) = noIssueArgument.data) by
            simp [processOneCommand, h1, h2f, h3, h4]]
          rw [isApprover_addApprover, isApprover_addAuthorSelfApprover]
          by_cases ha : a = c.author <;> simp [ha, effectStep]
        · have h5 : toUpperChars nc.1 = lgtmCommand.data := by
            by_contra h5
            exact h1 ⟨h4, h5⟩
          rw [show processOneCommand author c ap nc =
              (ap.addAuthorSelfApprover c.author c.htmlURL
                (toLowerChars (trimChars nc.2) = noIssueArgument.data)).addLGTMer
                c.author c.htmlURL
                (toLowerChars (trimChars nc.2) = noIssueArgument.data) by
            simp [processOneCommand, h1, h2f, h3, h4, h5]
            intro hc
            exact absurd hc (by decide)]
          rw [isApprover_addLGTMer, isApprover_addAuthorSelfApprover]
          by_cases ha : a = c.author <;> simp [ha, effectStep]
      · by_cases h4 : toUpperChars nc.1 = approveCommand.data
        · rw [show processOneCommand author c ap nc =
              ap.addApprover c.author c.htmlURL
                (toLowerChars (trimChars nc.2) = noIssueArgument.data) by
            simp [processOneCommand, h1, h2f, h3, h4]]
          rw [isApprover_addApprover]
          by_cases ha : a = c.author <;> simp [ha, effectStep]
        · have h5 : toUpperChars nc.1 = lgtmCommand.data := by
            by_contra h5
            exact h1 ⟨h4, h5⟩
          rw [show processOneCommand author c ap nc =
              ap.addLGTMer c.author c.htmlURL
                (toLowerChars (trimChars nc.2) = noIssueArgument.data) by
            simp [processOneCommand, h1, h2f, h3, h4, h5]
            intro hc
            exact absurd hc (by decide)]
          rw [isApprover_addLGTMer]
          by_cases ha : a = c.author <;> simp [ha, effectStep]

theorem isApprover_foldCommands (author : String) (c : Comment) (a : String)
    (cmds : List (List Char × List Char)) :
    ∀ ap : Approvers,
    (cmds.foldl (processOneCommand author c) ap).isApprover a =
      (if a = c.author then (cmds.filterMap commandEffect).getLast? else none).getD
        (ap.isApprover a) := by
  induction cmds with
  | nil =>
    intro ap
    by_cases ha : a = c.author <;> simp [ha]
  | cons nc cmds ih =>
    intro ap
    rw [List.foldl_cons, ih, List.filterMap_cons]
    cases he : commandEffect nc with
    | none => simp [isApprover_processOneCommand, he, effectStep]
    | some b =>
      by_cases ha : a = c.author
      · simp [ha, isApprover_processOneCommand, he, effectStep, getLast?_cons_getD]
      · simp [ha, isApprover_processOneCommand, he, effectStep]

theorem isApprover_processComment (author : String) (ras : Bool) (ap : Approvers)
    (c : Comment) (a : String) :
    (processComment author ras ap c).isApprover a =
      ((if a = c.author then commentEffects ras c else []).getLast?).getD
        (ap.isApprover a) := by
  by_cases h0 : c.author = ""
  · by_cases ha : a = c.author <;> simp [processComment, commentEffects, h0, ha]
  · by_cases h1 : (ras = true ∧ c.reviewState = reviewStateApproved)
    · by_cases h2 : (ras = true ∧ c.reviewState = reviewStateChangesRequested)
      · exact absurd (h1.2.symm.trans h2.2) (by decide)
      · simp only [processComment, commentEffects, if_neg h0, if_pos h1, if_neg h2]
        rw [isApprover_foldCommands, isApprover_addApprover]
        by_cases ha : a = c.author
        · simp [ha, getLast?_cons_getD]
        · simp [ha]
    · by_cases h2 : (ras = true ∧ c.reviewState = reviewStateChangesRequested)
      · simp only [processComment, commentEffects, if_neg h0, if_neg h1, if_pos h2]
        rw [isApprover_foldCommands, isApprover_removeApprover]
        by_cases ha : a = c.author
        · simp [ha, getLast?_cons_getD]
        · simp [ha]
      · simp only [processComment, commentEffects, if_neg h0, if_neg h1, if_neg h2]
        rw [isApprover_foldCommands]
        by_cases ha : a = c.author
        · simp [ha]
        · simp [ha]

theorem isApprover_addApprovers (cs : List Comment) (author : String) (ras : Bool)
    (a : String) :
    ∀ ap : Approvers,
    (addApprovers ap cs author ras).isApprover a =
      ((authorEffects ras a cs).getLast?).getD (ap.isApprover a) := by
  induction cs with
  | nil =>
    intro ap
    simp [addApprovers, authorEffects]
  | cons c cs ih =>
    intro ap
    rw [show addApprovers ap (c :: cs) author ras =
        addApprovers (processComment author ras ap c) cs author ras from rfl,
      ih, show authorEffects ras a (c :: cs) =
        (if a = c.author then commentEffects ras c else []) ++ authorEffects ras a cs
        from by simp [authorEffects],
      getLast?_append_getD, isApprover_processComment]

/-- C1: For every ordered stream of approval-relevant comments and every
author, the author is in the final approver set iff their chronologically last
relevant action adds them (`true` effect: an `/approve` or `/lgtm` without a
cancel argument, or an approved review when review state is considered) and
absent iff their last relevant action is a cancel (`false` effect: a command
with a cancel argument, or a changes-requested review): membership after
`addApprovers` equals the last entry of the author's action trace. -/
theorem C1_approver_last_action_wins (ap : Approvers) (cs : List Comment)
    (author : String) (reviewActsAsApprove : Bool) (a : String) (b : Bool)
    (h : (authorEffects reviewActsAsApprove a cs).getLast? = some b) :
    (addApprovers ap cs author reviewActsAsApprove).isApprover a = b := by
  rw [isApprover_addApprovers, h]
  rfl

/-- Witness for C1, on the claim's own scenario: `alice` sends `/approve`,
later `/approve cancel`, still later `/approve`; after the first two comments
her last action is a cancel and she is out of the approver set, after the
third she is back in. -/
theorem C1_witness :
    ((authorEffects true "alice"
        [⟨"/approve", "alice", 1, "u1", 1, ""⟩,
         ⟨"/approve cancel", "alice", 2, "u2", 2, ""⟩]).getLast? = some false ∧
      (addApprovers (newApprovers [] [])
        [⟨"/approve", "alice", 1, "u1", 1, ""⟩,
         ⟨"/approve cancel", "alice", 2, "u2", 2, ""⟩] "bob" true).isApprover
        "alice" = false) ∧
    ((authorEffects true "alice"
        [⟨"/approve", "alice", 1, "u1", 1, ""⟩,
         ⟨"/approve cancel", "alice", 2, "u2", 2, ""⟩,
         ⟨"/approve", "alice", 3, "u3", 3, ""⟩]).getLast? = some true ∧
      (addApprovers (newApprovers [] [])
        [⟨"/approve", "alice", 1, "u1", 1, ""⟩,
         ⟨"/approve cancel", "alice", 2, "u2", 2, ""⟩,
         ⟨"/approve", "alice", 3, "u3", 3, ""⟩] "bob" true).isApprover
        "alice" = true) :=
  ⟨⟨by decide, C1_approver_last_action_wins _ _ _ _ _ _ (by decide)⟩,
   ⟨by decide, C1_approver_last_action_wins _ _ _ _ _ _ (by decide)⟩⟩

/-- C2 counterexample: the claim says a dismissed review removes its author
from the approver set exactly as a cancel would.  On the code it does not:
after `alice` approves by command and then her review stream carries a
`DISMISSED` review, she is still in the approver set (and the dismissed
review is approval-relevant, so it was not merely filtered away). -/
theorem C2_counterexample :
    (addApprovers (newApprovers [] [])
        [⟨"/approve", "alice", 1, "u1", 1, ""⟩,
         ⟨"", "alice", 2, "u2", 2, "DISMISSED"⟩] "bob" true).isApprover
      "alice" = true ∧
    isApprovalState "bot" true ⟨"", "alice", 2, "u2", 2, "DISMISSED"⟩ = true := by
  decide

/-- C2 amended: when review state is considered, a review comment in
`dismissed` state passes the approval-relevance filter, but processing it in
`addApprovers` performs no membership action at all — only `approved` adds and
`changes-requested` removes; a dismissed review retracts an approval only
indirectly, because the review object that previously reported `approved` now
reports `dismissed`. -/
theorem C2_dismissed_review_is_noop (author : String) (ras : Bool)
    (ap : Approvers) (c : Comment)
    (hstate : c.reviewState = reviewStateDismissed)
    (hbody : parseCommands c.body = []) :
    processComment author ras ap c = ap ∧
    (∀ botName, c.author ≠ botName → isDeprecatedBot c.author = false →
      isApprovalState botName true c = true) := by
  constructor
  · by_cases h0 : c.author = ""
    · simp [processComment, h0]
    · have h1 : ¬(ras = true ∧ c.reviewState = reviewStateApproved) := by
        rintro ⟨-, hc⟩
        exact absurd (hstate.symm.trans hc) (by decide)
      have h2 : ¬(ras = true ∧ c.reviewState = reviewStateChangesRequested) := by
        rintro ⟨-, hc⟩
        exact absurd (hstate.symm.trans hc) (by decide)
      simp [processComment, h0, h1, h2, hbody]
  · intro botName hb hd
    have hnor : ¬(c.author = botName ∨ isDeprecatedBot c.author = true) := by
      rintro (h | h)
      · exact hb h
      · rw [hd] at h
        exact absurd h (by decide)
    simp only [isApprovalState, if_neg hnor, hstate]
    decide

/-- Witness for C2's amended theorem: a concrete dismissed review with an
empty body leaves a concrete accumulator untouched while being
approval-relevant. -/
theorem C2_witness :
    processComment "bob" true (newApprovers [] [])
        ⟨"", "alice", 2, "u2", 2, "DISMISSED"⟩ = newApprovers [] [] ∧
    isApprovalState "bot" true ⟨"", "alice", 2, "u2", 2, "DISMISSED"⟩ = true :=
  ⟨(C2_dismissed_review_is_noop "bob" true (newApprovers [] [])
      ⟨"", "alice", 2, "u2", 2, "DISMISSED"⟩ rfl (by decide)).1,
   (C2_dismissed_review_is_noop "bob" true (newApprovers [] [])
      ⟨"", "alice", 2, "u2", 2, "DISMISSED"⟩ rfl (by decide)).2 "bot"
      (by decide) (by decide)⟩

/-! ## The human-override flag through the pipeline -/

theorem manuallyApproved_addAssignees (ap : Approvers) (l : String) :
    (ap.addAssignees l).manuallyApproved = ap.manuallyApproved := by
  unfold Approvers.addAssignees
  split <;> rfl

theorem manuallyApproved_processOneCommand (author : String) (c : Comment)
    (ap : Approvers) (nc : List Char × List Char) :
    (processOneCommand author c ap nc).manuallyApproved = ap.manuallyApproved := by
  simp only [processOneCommand]
  split_ifs <;> rfl

theorem manuallyApproved_foldCommands (author : String) (c : Comment)
    (cmds : List (List Char × List Char)) :
    ∀ ap : Approvers,
    (cmds.foldl (processOneCommand author c) ap).manuallyApproved =
      ap.manuallyApproved := by
  induction cmds with
  | nil => intro ap; rfl
  | cons nc cmds ih =>
    intro ap
    rw [List.foldl_cons, ih, manuallyApproved_processOneCommand]

theorem manuallyApproved_processComment (author : String) (ras : Bool)
    (ap : Approvers) (c : Comment) :
    (processComment author ras ap c).manuallyApproved = ap.manuallyApproved := by
  by_cases h0 : c.author = ""
  · simp [processComment, h0]
  · simp only [processComment, if_neg h0]
    rw [manuallyApproved_foldCommands]
    split_ifs <;> rfl

theorem manuallyApproved_addApprovers (author : String) (ras : Bool)
    (cs : List Comment) :
    ∀ ap : Approvers,
    (addApprovers ap cs author ras).manuallyApproved = ap.manuallyApproved := by
  induction cs with
  | nil => intro ap; rfl
  | cons c cs ih =>
    intro ap
    rw [show addApprovers ap (c :: cs) author ras =
        addApprovers (processComment author ras ap c) cs author ras from rfl,
      ih, manuallyApproved_processComment]

theorem manuallyApproved_assigneesFold (us : List String) :
    ∀ ap : Approvers,
    (us.foldl (fun acc u => acc.addAssignees u) ap).manuallyApproved =
      ap.manuallyApproved := by
  induction us with
  | nil => intro ap; rfl
  | cons u us ih =>
    intro ap
    rw [List.foldl_cons, ih, manuallyApproved_addAssignees]

theorem manuallyApproved_approversSetup (ownersData : List (String × List String))
    (filenames : List String) (opts : Approve) (pr : PRState) (hasLabel : Bool)
    (events : Except String (List ListedIssueEvent)) (botName : String) :
    (approversSetup ownersData filenames opts pr hasLabel events
        botName).manuallyApproved =
      humanAddedApprovedFindOut hasLabel events botName := by
  unfold approversSetup
  split
  · rfl
  · rw [manuallyApproved_addAssignees]

theorem manuallyApproved_approversAfterAll
    (ownersData : List (String × List String)) (opts : Approve) (pr : PRState)
    (d : FetchedData) :
    (approversAfterAll ownersData opts pr d).manuallyApproved =
      humanAddedApprovedFindOut (hasApprovedLabelOf d.issueLabels) d.issueEvents
        d.botName := by
  unfold approversAfterAll
  rw [manuallyApproved_assigneesFold, manuallyApproved_addApprovers,
    manuallyApproved_approversSetup]

/-- C3: If the approval label is present and the actor of the most recent
label-added event for it is neither the bot nor a retired predecessor, the
human-override flag is set, and a set flag forces the verdict "approved"
regardless of computed coverage; the flag is false when the label is absent,
when the history is unavailable or empty, or when the most recent adder is
unknown, the bot, or a predecessor; the closure caches its result, computing
it at most once per evaluation; and the flag `handle` installs in the
accumulator is exactly this computation. -/
theorem C3_human_override (botName : String)
    (events : Except String (List ListedIssueEvent)) :
    humanAddedApprovedFindOut false events botName = false ∧
    (∀ e, humanAddedApprovedFindOut true (.error e) botName = false) ∧
    humanAddedApprovedFindOut true (.ok []) botName = false ∧
    (∀ evs ev, lastApprovedLabelAdd evs = some ev → ev.actorLogin ≠ "" →
      ev.actorLogin ≠ botName → isDeprecatedBot ev.actorLogin = false →
      humanAddedApprovedFindOut true (.ok evs) botName = true) ∧
    (∀ evs ev, lastApprovedLabelAdd evs = some ev →
      (ev.actorLogin = "" ∨ ev.actorLogin = botName ∨
        isDeprecatedBot ev.actorLogin = true) →
      humanAddedApprovedFindOut true (.ok evs) botName = false) ∧
    (∀ compute : Unit → Bool,
      (LazyBool.force compute ⟨none⟩).2.2 = true ∧
      (LazyBool.force compute (LazyBool.force compute ⟨none⟩).2.1).2.2 = false ∧
      (LazyBool.force compute (LazyBool.force compute ⟨none⟩).2.1).1 =
        (LazyBool.force compute ⟨none⟩).1) ∧
    (∀ ap : Approvers, ap.manuallyApproved = true → ap.isApproved = true) ∧
    (∀ ownersData filenames opts pr hasLabel ev bot,
      (approversSetup ownersData filenames opts pr hasLabel ev bot).manuallyApproved
        = humanAddedApprovedFindOut hasLabel ev bot) := by
  refine ⟨rfl, fun e => rfl, rfl, ?_, ?_, fun compute => ⟨rfl, rfl, rfl⟩, ?_, ?_⟩
  · intro evs ev hlast h1 h2 h3
    have hnor : ¬(ev.actorLogin = "" ∨ ev.actorLogin = botName ∨
        isDeprecatedBot ev.actorLogin = true) := by
      rintro (h | h | h)
      · exact h1 h
      · exact h2 h
      · rw [h3] at h
        exact absurd h (by decide)
    simp [humanAddedApprovedFindOut, hlast, hnor]
  · intro evs ev hlast hor
    simp [humanAddedApprovedFindOut, hlast, hor]
  · intro ap h
    simp [Approvers.isApproved, h]
  · intro ownersData filenames opts pr hasLabel ev bot
    exact manuallyApproved_approversSetup ownersData filenames opts pr hasLabel ev bot

/-- Witness for C3: a concrete history where a human (`carol`) was the most
recent adder of the approval label sets the flag; the bot as the most recent
adder does not; an override forces a concrete unapprovable accumulator to
verdict approved. -/
theorem C3_witness :
    humanAddedApprovedFindOut true
      (.ok [⟨"labeled", "approved", "bot"⟩, ⟨"labeled", "approved", "carol"⟩])
      "bot" = true ∧
    humanAddedApprovedFindOut true
      (.ok [⟨"labeled", "approved", "carol"⟩, ⟨"labeled", "approved", "bot"⟩])
      "bot" = false ∧
    humanAddedApprovedFindOut false (.ok [⟨"labeled", "approved", "carol"⟩])
      "bot" = false ∧
    ({ newApprovers ["a/b.go"] [] with manuallyApproved := true } :
      Approvers).isApproved = true := by
  refine ⟨?_, ?_, ?_, ?_⟩
  · exact (C3_human_override "bot" (.ok [])).2.2.2.1
      [⟨"labeled", "approved", "bot"⟩, ⟨"labeled", "approved", "carol"⟩]
      ⟨"labeled", "approved", "carol"⟩ (by decide) (by decide) (by decide)
      (by decide)
  · exact (C3_human_override "bot" (.ok [])).2.2.2.2.1
      [⟨"labeled", "approved", "carol"⟩, ⟨"labeled", "approved", "bot"⟩]
      ⟨"labeled", "approved", "bot"⟩ (by decide) (Or.inr (Or.inl rfl))
  · exact (C3_human_override "bot" (.ok [])).1
  · exact (C3_human_override "bot" (.ok [])).2.2.2.2.2.2.1 _ rfl

/-! ## Containment facts for error strings and notifications -/

theorem listContainsSub_of_append (sub pre post : List Char) :
    listContainsSub sub (pre ++ (sub ++ post)) = true := by
  induction pre with
  | nil =>
    cases sub with
    | nil => cases post <;> rfl
    | cons s ss =>
      show ((s :: ss).isPrefixOf ((s :: ss) ++ post) ||
        listContainsSub (s :: ss) (ss ++ post)) = true
      rw [List.isPrefixOf_iff_prefix.mpr (List.prefix_append (s :: ss) post),
        Bool.true_or]
  | cons c pre ih => simp [listContainsSub, ih]

theorem listContainsSub_of_eq_append (sub l pre post : List Char)
    (h : l = pre ++ (sub ++ post)) : listContainsSub sub l = true := by
  rw [h]
  exact listContainsSub_of_append sub pre post

theorem listContainsSub_self (l : List Char) : listContainsSub l l = true :=
  listContainsSub_of_eq_append l l [] [] (by simp)

theorem strContains_self (s : String) : strContains s s = true :=
  listContainsSub_self s.data

theorem fetchErrMsg_names_key (pr : PRState) (ctx msg : String) :
    strContains (fetchErrMsg pr ctx msg)
      (pr.org ++ "/" ++ pr.repo ++ "#" ++ toString pr.number) = true := by
  apply listContainsSub_of_eq_append _ _
    ("failed to get ".data ++ ctx.data ++ " for ".data) (": ".data ++ msg.data)
  simp [fetchErrMsg, String.data_append, List.append_assoc]

theorem fetchErrMsg_names_op (pr : PRState) (ctx msg : String) :
    strContains (fetchErrMsg pr ctx msg) ctx = true := by
  apply listContainsSub_of_eq_append _ _ "failed to get ".data
    (" for ".data ++ pr.org.data ++ "/".data ++ pr.repo.data ++ "#".data ++
      (toString pr.number).data ++ ": ".data ++ msg.data)
  simp [fetchErrMsg, String.data_append, List.append_assoc]

/-- C5: `handle` returns an error iff one of the six required reads fails; the
error is the `fetchErr` annotation of the first failing operation, naming that
operation and the (org, repo, PR number) key, and no mutation has been issued;
a failing issue-event history lookup never makes the result an error (the
reconciliation mutations are only logged by the code, so they cannot either
— the returned error is computed before and independently of them). -/
theorem C5_error_handling (ownersData : List (String × List String))
    (linkURL commandURL : String) (opts : Approve) (pr : PRState)
    (f : FetchResults) :
    ((handleTrace ownersData linkURL commandURL opts pr f).1 = none ↔
      (f.changes.isOk = true ∧ f.issueLabels.isOk = true ∧
        f.botName.isOk = true ∧ f.issueComments.isOk = true ∧
        f.reviewComments.isOk = true ∧ f.reviews.isOk = true)) ∧
    (∀ e, f.changes = .error e →
      handleTrace ownersData linkURL commandURL opts pr f =
        (some (fetchErrMsg pr "PR file changes" e), [])) ∧
    (∀ x e, f.changes = .ok x → f.issueLabels = .error e →
      handleTrace ownersData linkURL commandURL opts pr f =
        (some (fetchErrMsg pr "issue labels" e), [])) ∧
    (∀ x y e, f.changes = .ok x → f.issueLabels = .ok y → f.botName = .error e →
      handleTrace ownersData linkURL commandURL opts pr f =
        (some (fetchErrMsg pr "bot name" e), [])) ∧
    (∀ x y z e, f.changes = .ok x → f.issueLabels = .ok y → f.botName = .ok z →
      f.issueComments = .error e →
      handleTrace ownersData linkURL commandURL opts pr f =
        (some (fetchErrMsg pr "issue comments" e), [])) ∧
    (∀ x y z w e, f.changes = .ok x → f.issueLabels = .ok y → f.botName = .ok z →
      f.issueComments = .ok w → f.reviewComments = .error e →
      handleTrace ownersData linkURL commandURL opts pr f =
        (some (fetchErrMsg pr "review comments" e), [])) ∧
    (∀ x y z w v e, f.changes = .ok x → f.issueLabels = .ok y → f.botName = .ok z →
      f.issueComments = .ok w → f.reviewComments = .ok v → f.reviews = .error e →
      handleTrace ownersData linkURL commandURL opts pr f =
        (some (fetchErrMsg pr "reviews" e), [])) ∧
    (∀ g, (handleTrace ownersData linkURL commandURL opts pr
        { f with issueEvents := g }).1 =
      (handleTrace ownersData linkURL commandURL opts pr f).1) ∧
    (∀ ctx msg, strContains (fetchErrMsg pr ctx msg)
        (pr.org ++ "/" ++ pr.repo ++ "#" ++ toString pr.number) = true ∧
      strContains (fetchErrMsg pr ctx msg) ctx = true) := by
  obtain ⟨fc, fl, fb, fic, frc, frv, fev⟩ := f
  refine ⟨?_, ?_, ?_, ?_, ?_, ?_, ?_, ?_, ?_⟩
  · cases fc <;> cases fl <;> cases fb <;> cases fic <;> cases frc <;> cases frv <;>
      simp [handleTrace, Except.isOk, Except.toBool]
  · intro e he
    cases he
    rfl
  · intro x e hx he
    cases hx
    cases he
    rfl
  · intro x y e hx hy he
    cases hx
    cases hy
    cases he
    rfl
  · intro x y z e hx hy hz he
    cases hx
    cases hy
    cases hz
    cases he
    rfl
  · intro x y z w e hx hy hz hw he
    cases hx
    cases hy
    cases hz
    cases hw
    cases he
    rfl
  · intro x y z w v e hx hy hz hw hv he
    cases hx
    cases hy
    cases hz
    cases hw
    cases hv
    cases he
    rfl
  · intro g
    cases fc <;> cases fl <;> cases fb <;> cases fic <;> cases frc <;> cases frv <;>
      simp [handleTrace]
  · intro ctx msg
    exact ⟨fetchErrMsg_names_key pr ctx msg, fetchErrMsg_names_op pr ctx msg⟩

/-- Witness for C5: a failing changed-files read on a concrete PR yields
exactly the annotated error and an empty mutation trace, and the error string
contains both the operation name and the `org/repo#number` key. -/
theorem C5_witness :
    handleTrace [] "L" "C" {} ⟨"o", "r", "b", 5, "", "x", [], "u"⟩
        ⟨.error "boom", .ok [], .ok "bot", .ok [], .ok [], .ok [], .ok []⟩ =
      (some "failed to get PR file changes for o/r#5: boom", []) ∧
    strContains "failed to get PR file changes for o/r#5: boom" "o/r#5" = true := by
  have h := (C5_error_handling [] "L" "C" {} ⟨"o", "r", "b", 5, "", "x", [], "u"⟩
    ⟨.error "boom", .ok [], .ok "bot", .ok [], .ok [], .ok [], .ok []⟩).2.1
    "boom" rfl
  rw [h]
  constructor
  · decide
  · decide

/-! ## Label reconciliation -/

/-- Whether a mutation touches a label. -/
def isLabelMutation : Mutation → Bool
  | Mutation.addLabel _ => true
  | Mutation.removeLabel _ => true
  | _ => false

theorem commentMutationOps_no_labels (nm : Option String) (notifs : List Comment) :
    (commentMutationOps nm notifs).filter isLabelMutation = [] := by
  cases nm with
  | none => rfl
  | some m =>
    induction notifs with
    | nil => rfl
    | cons n ns ih =>
      show (Mutation.deleteComment n.id ::
        (ns.map (fun n => Mutation.deleteComment n.id) ++
          [Mutation.createComment m])).filter isLabelMutation = []
      rw [List.filter_cons]
      simp [isLabelMutation, commentMutationOps, ih]

theorem labelMutationOps_all_labels (v h : Bool) :
    (labelMutationOps v h).filter isLabelMutation = labelMutationOps v h := by
  cases v <;> cases h <;> rfl

/-- C6: every evaluation issues exactly the label mutations dictated by the
verdict and the label presence observed at fetch time — the label mutations of
`handle`'s trace are exactly `labelMutationOps verdict hasLabel`, which is one
add when approved-but-unlabelled, one remove when unapproved-but-labelled, and
empty in the two agreeing combinations (so never more than one mutation). -/
theorem C6_label_reconciliation (ownersData : List (String × List String))
    (linkURL commandURL : String) (opts : Approve) (pr : PRState)
    (d : FetchedData) :
    ((handleCore ownersData linkURL commandURL opts pr d).mutations.filter
        isLabelMutation =
      labelMutationOps (approversAfterAll ownersData opts pr d).isApproved
        (hasApprovedLabelOf d.issueLabels)) ∧
    labelMutationOps true false = [Mutation.addLabel labelsApproved] ∧
    labelMutationOps false true = [Mutation.removeLabel labelsApproved] ∧
    labelMutationOps true true = [] ∧
    labelMutationOps false false = [] ∧
    (∀ v h : Bool, (labelMutationOps v h).length ≤ 1) := by
  refine ⟨?_, rfl, rfl, rfl, rfl, ?_⟩
  · show (commentMutationOps _ _ ++ labelMutationOps _ _).filter isLabelMutation = _
    rw [List.filter_append, commentMutationOps_no_labels, labelMutationOps_all_labels,
      List.nil_append]
  · intro v h
    cases v <;> cases h <;> decide

/-- C7 counterexample: the claim says `no-issue` is matched case-insensitively
as a substring of the trimmed argument, so `/approve no-issue extra` counts as
a no-issue approval.  On the code it does not: the author is added as an
approver, but with the no-issue waiver flag `false` (the argument is compared
to `no-issue` by exact equality). -/
theorem C7_counterexample :
    ((addApprovers (newApprovers [] [])
        [⟨"/approve no-issue extra", "u", 1, "url", 1, ""⟩] "other"
        false).approvers.any (fun a => a.login == "u" && a.noIssue)) = false ∧
    (addApprovers (newApprovers [] [])
        [⟨"/approve no-issue extra", "u", 1, "url", 1, ""⟩] "other"
        false).isApprover "u" = true := by
  decide

/-- C7 amended: in command parsing, `cancel` is recognized case-insensitively
as a substring of the trimmed argument, but `no-issue` is recognized only by
exact (case-insensitive) equality with the trimmed argument: a command with a
cancel-containing argument removes the author, and an `/approve` with any
other argument adds the author with the no-issue flag set exactly when the
trimmed lowercased argument equals `no-issue` — so `/approve no-issue extra`
is a plain approval without the waiver. -/
theorem C7_argument_matching (author : String) (c : Comment) (ap : Approvers)
    (name arg : List Char)
    (hname : toUpperChars name = approveCommand.data ∨
      toUpperChars name = lgtmCommand.data) :
    (listContainsSub cancelArgument.data (toLowerChars (trimChars arg)) = true →
      processOneCommand author c ap (name, arg) = ap.removeApprover c.author) ∧
    (listContainsSub cancelArgument.data (toLowerChars (trimChars arg)) = false →
      toUpperChars name = approveCommand.data → c.author ≠ author →
      processOneCommand author c ap (name, arg) =
        ap.addApprover c.author c.htmlURL
          (toLowerChars (trimChars arg) = noIssueArgument.data)) := by
  have h1 : ¬(toUpperChars name ≠ approveCommand.data ∧
      toUpperChars name ≠ lgtmCommand.data) := by
    rcases hname with h | h
    · exact fun hc => hc.1 h
    · exact fun hc => hc.2 h
  constructor
  · intro hc
    simp [processOneCommand, h1, hc]
  · intro hc hap hauth
    simp [processOneCommand, h1, hc, hap, hauth]

/-- Witness for C7's amended theorem: `  CANCEL please  ` cancels (substring,
case-insensitive), while `no-issue extra` adds a plain approval whose no-issue
flag is `false`. -/
theorem C7_witness :
    processOneCommand "other" ⟨"x", "u", 1, "url", 1, ""⟩ (newApprovers [] [])
        ("approve".data, "  CANCEL please  ".data) =
      (newApprovers [] []).removeApprover "u" ∧
    processOneCommand "other" ⟨"x", "u", 1, "url", 1, ""⟩ (newApprovers [] [])
        ("approve".data, "no-issue extra".data) =
      (newApprovers [] []).addApprover "u" "url" false := by
  constructor
  · exact (C7_argument_matching "other" ⟨"x", "u", 1, "url", 1, ""⟩
      (newApprovers [] []) "approve".data "  CANCEL please  ".data
      (Or.inl (by decide))).1 (by decide)
  · have h := (C7_argument_matching "other" ⟨"x", "u", 1, "url", 1, ""⟩
      (newApprovers [] []) "approve".data "no-issue extra".data
      (Or.inl (by decide))).2 (by decide) (by decide) (by decide)
    rw [h]
    decide

/-- C8: the assignee plumbing of `robot.handle` builds the `github.User` slice
in a shadowing inner variable and discards it, so no PR-declared assignee ever
reaches the evaluation: the assignee list handed to the approver state is
empty for every assignee list of the PR event (the claim — and the spec — say
every PR-declared assignee is added as a suggested approver).  The claim's
parenthetical is separately true of the spec-modelled operation: an assignee
hint never enters the approver set. -/
theorem C8_assignees_shadowed (as : List String) :
    buildStateAssignees as = [] ∧
    (∀ (ap : Approvers) (login a : String),
      (ap.addAssignees login).isApprover a = ap.isApprover a) := by
  constructor
  · unfold buildStateAssignees
    split <;> rfl
  · exact fun ap login a => isApprover_addAssignees ap login a

/-- C9: when neither self-approval option is configured, `HasSelfApproval` is
`true`; with `HasSelfApproval` the PR author is installed as an approver in
the state-machine setup — before any comment is processed — with the synthetic
provenance `htmlURL ++ "#"` pointing at the PR itself; with explicit
self-approval required the author is instead recorded only as a suggested
approver (an assignee hint, not an approver), and stays a non-approver through
any comment stream in which they never command approval. -/
theorem C9_self_approval_default (opts : Approve)
    (ownersData : List (String × List String)) (filenames : List String)
    (pr : PRState) (hasLabel : Bool)
    (events : Except String (List ListedIssueEvent)) (botName : String) :
    (∀ o : Approve, o.deprecatedImplicitSelfApprove = none →
      o.requireSelfApproval = none → o.hasSelfApproval = true) ∧
    (opts.hasSelfApproval = true →
      (approversSetup ownersData filenames opts pr hasLabel events
          botName).approvers =
        [⟨pr.author, pr.htmlURL ++ "#", false, "Author"⟩] ∧
      (approversSetup ownersData filenames opts pr hasLabel events
          botName).isApprover pr.author = true) ∧
    (opts.hasSelfApproval = false →
      (approversSetup ownersData filenames opts pr hasLabel events
          botName).approvers = [] ∧
      (approversSetup ownersData filenames opts pr hasLabel events
          botName).isApprover pr.author = false ∧
      pr.author ∈ (approversSetup ownersData filenames opts pr hasLabel events
          botName).assignees ∧
      (∀ (cs : List Comment) (ras : Bool),
        authorEffects ras pr.author cs = [] →
        (addApprovers (approversSetup ownersData filenames opts pr hasLabel events
            botName) cs pr.author ras).isApprover pr.author = false)) := by
  refine ⟨?_, ?_, ?_⟩
  · intro o h1 h2
    simp [Approve.hasSelfApproval, h1, h2]
  · intro h
    constructor
    · simp [approversSetup, h, Approvers.addAuthorSelfApprover, newApprovers]
    · simp [approversSetup, h, Approvers.addAuthorSelfApprover, newApprovers,
        Approvers.isApprover, Approvers.approverLogins]
  · intro h
    have hsetup : approversSetup ownersData filenames opts pr hasLabel events
        botName =
        ({ newApprovers filenames ownersData with
            associatedIssue := findAssociatedIssue pr.body pr.org,
            requireIssue := opts.issueRequired,
            manuallyApproved :=
              humanAddedApprovedFindOut hasLabel events botName } :
          Approvers).addAssignees pr.author := by
      simp [approversSetup, h]
    refine ⟨?_, ?_, ?_, ?_⟩
    · rw [hsetup]
      simp [Approvers.addAssignees, newApprovers]
    · rw [hsetup, isApprover_addAssignees]
      simp [Approvers.isApprover, Approvers.approverLogins, newApprovers]
    · rw [hsetup]
      simp [Approvers.addAssignees, newApprovers]
    · intro cs ras heff
      rw [isApprover_addApprovers, heff]
      rw [hsetup, isApprover_addAssignees]
      simp [Approvers.isApprover, Approvers.approverLogins, newApprovers]

/-- Witness for C9: with self-approval required (`RequireSelfApproval = true`)
and a stream holding only an unrelated user's approval, the author `alice` is
not an approver but is a suggested approver; with the default configuration
she is an approver with the synthetic PR reference. -/
theorem C9_witness :
    Approve.hasSelfApproval {} = true ∧
    (approversSetup [] ["f.go"] {} ⟨"o", "r", "b", 1, "", "alice", [], "u"⟩
        false (.ok []) "bot").approvers = [⟨"alice", "u#", false, "Author"⟩] ∧
    (approversSetup [] ["f.go"]
        { requireSelfApproval := some true } ⟨"o", "r", "b", 1, "", "alice", [], "u"⟩
        false (.ok []) "bot").isApprover "alice" = false ∧
    (addApprovers (approversSetup [] ["f.go"]
        { requireSelfApproval := some true } ⟨"o", "r", "b", 1, "", "alice", [], "u"⟩
        false (.ok []) "bot") [⟨"/approve", "bob", 1, "ub", 1, ""⟩] "alice"
        true).isApprover "alice" = false := by
  refine ⟨?_, ?_, ?_, ?_⟩
  · exact (C9_self_approval_default {} [] [] ⟨"o", "r", "b", 1, "", "alice", [], "u"⟩
      false (.ok []) "bot").1 {} rfl rfl
  · exact ((C9_self_approval_default {} [] ["f.go"]
      ⟨"o", "r", "b", 1, "", "alice", [], "u"⟩ false (.ok []) "bot").2.1 rfl).1
  · exact ((C9_self_approval_default { requireSelfApproval := some true } []
      ["f.go"] ⟨"o", "r", "b", 1, "", "alice", [], "u"⟩ false (.ok []) "bot").2.2
      rfl).2.1
  · exact ((C9_self_approval_default { requireSelfApproval := some true } []
      ["f.go"] ⟨"o", "r", "b", 1, "", "alice", [], "u"⟩ false (.ok []) "bot").2.2
      rfl).2.2.2 [⟨"/approve", "bob", 1, "ub", 1, ""⟩] true (by decide)

/-- C10: a note-event comment that carries no `/approve` command never
triggers an evaluation, whatever the repository configuration: the gate
invokes `isApproveCommand` with LGTM-as-approve hard-coded to `false`, so only
an `APPROVE` command passes, and the per-repository configuration translation
leaves `LgtmActsAsApprove` and `IssueRequired` at their zero value `false`. -/
theorem C10_lgtm_only_never_triggers (body : String)
    (h : ∀ nc ∈ parseCommands body, toUpperChars nc.1 ≠ approveCommand.data) :
    isApproveCommand body false = false ∧
    (∀ creating isPR : Bool, ∀ botName commenter : String,
      noteEventTriggers creating isPR botName commenter body = false) ∧
    (∀ org cfg, (transformConfig org cfg).lgtmActsAsApprove = false ∧
      (transformConfig org cfg).issueRequired = false) := by
  have hcmd : isApproveCommand body false = false := by
    unfold isApproveCommand
    rw [List.any_eq_false]
    intro nc hnc
    simp [h nc hnc]
  refine ⟨hcmd, ?_, ?_⟩
  · intro creating isPR botName commenter
    simp [noteEventTriggers, hcmd]
  · intro org cfg
    exact ⟨rfl, rfl⟩

/-- Witness for C10: the body `/lgtm` (an LGTM command, no approve command)
does not trigger the evaluation even for a stranger's fresh comment on a PR. -/
theorem C10_witness :
    isApproveCommand "/lgtm" false = false ∧
    noteEventTriggers true true "approve-bot" "alice" "/lgtm" = false :=
  ⟨(C10_lgtm_only_never_triggers "/lgtm" (by decide)).1,
   (C10_lgtm_only_never_triggers "/lgtm" (by decide)).2.1 true true "approve-bot"
     "alice"⟩

/-! ## Stable sorting commutes with filtering -/

theorem orderedInsert_of_le_all (a : Comment) (s : List Comment)
    (h : ∀ x ∈ s, commentLE a x) :
    List.orderedInsert commentLE a s = a :: s := by
  cases s with
  | nil => rfl
  | cons b s =>
    rw [List.orderedInsert, if_pos (h b (List.mem_cons_self b s))]

theorem filter_orderedInsert (p : Comment → Bool) (a : Comment) (l : List Comment)
    (hs : List.Sorted commentLE l) :
    (List.orderedInsert commentLE a l).filter p =
      if p a then List.orderedInsert commentLE a (l.filter p) else l.filter p := by
  induction l with
  | nil =>
    cases hpa : p a <;> simp [List.orderedInsert, List.filter, hpa]
  | cons b l ih =>
    obtain ⟨hb, hl⟩ := List.sorted_cons.mp hs
    by_cases hab : commentLE a b
    · rw [List.orderedInsert, if_pos hab]
      cases hpa : p a with
      | false => simp [List.filter_cons, hpa]
      | true =>
        cases hpb : p b with
        | true =>
          simp only [List.filter_cons, hpa, hpb, if_pos, if_true]
          rw [List.orderedInsert, if_pos hab]
        | false =>
          simp only [List.filter_cons, hpa, hpb, if_true]
          rw [orderedInsert_of_le_all]
          intro x hx
          have hxl : x ∈ l := List.mem_of_mem_filter hx
          exact Trans.trans hab (hb x hxl)
    · rw [List.orderedInsert, if_neg hab]
      cases hpa : p a with
      | false =>
        cases hpb : p b with
        | true => simp [List.filter_cons, hpa, hpb, ih hl]
        | false => simp [List.filter_cons, hpa, hpb, ih hl]
      | true =>
        cases hpb : p b with
        | true =>
          simp only [List.filter_cons, hpa, hpb, if_true]
          rw [List.orderedInsert, if_neg hab, ih hl]
          simp [hpa]
        | false =>
          simp only [List.filter_cons, hpa, hpb, if_true]
          rw [ih hl]
          simp [hpa]

theorem filter_insertionSort (p : Comment → Bool) (l : List Comment) :
    (List.insertionSort commentLE l).filter p =
      List.insertionSort commentLE (l.filter p) := by
  induction l with
  | nil => rfl
  | cons a l ih =>
    rw [List.insertionSort,
      filter_orderedInsert p a _ (List.sorted_insertionSort commentLE l), ih]
    cases hpa : p a with
    | true => simp [List.filter_cons, hpa, List.insertionSort]
    | false => simp [List.filter_cons, hpa]

/-! ## The approval filter ignores the bot's own comments -/

theorem approvalMatcher_bot_false (botName : String) (lgtm ras : Bool) (c : Comment)
    (h : c.author = botName ∨ isDeprecatedBot c.author = true) :
    approvalMatcher botName lgtm ras c = false := by
  simp [approvalMatcher, isApprovalCommand, isApprovalState, h]

theorem notificationMatcher_author (botName : String) (c : Comment)
    (h : notificationMatcher botName c = true) :
    c.author = botName ∨ isDeprecatedBot c.author = true := by
  by_contra hn
  push_neg at hn
  unfold notificationMatcher at h
  rw [if_pos ⟨hn.1, fun hd => hn.2 hd⟩] at h
  exact absurd h (by decide)

theorem filtered_issueComments_stable (botName : String) (lgtm ras : Bool)
    (ics : List IssueComment) (n : IssueComment)
    (hn : (commentFromIssueComment n).author = botName) :
    (((ics.filter (fun ic =>
          !(notificationMatcher botName (commentFromIssueComment ic)))) ++
        [n]).map commentFromIssueComment).filter
        (approvalMatcher botName lgtm ras) =
      (ics.map commentFromIssueComment).filter (approvalMatcher botName lgtm ras) := by
  rw [List.map_append, List.filter_append]
  have hnone : (([n].map commentFromIssueComment).filter
      (approvalMatcher botName lgtm ras)) = [] := by
    simp [List.filter_cons, approvalMatcher_bot_false botName lgtm ras _ (Or.inl hn)]
  rw [hnone, List.append_nil, List.filter_map, List.filter_map, List.filter_filter]
  congr 1
  apply List.filter_congr
  intro ic hic
  simp only [Function.comp_apply]
  cases hp : approvalMatcher botName lgtm ras (commentFromIssueComment ic) with
  | false => simp [hp]
  | true =>
    cases hq : notificationMatcher botName (commentFromIssueComment ic) with
    | false => simp [hp, hq]
    | true =>
      have hcontra := approvalMatcher_bot_false botName lgtm ras
        (commentFromIssueComment ic) (notificationMatcher_author botName _ hq)
      rw [hp] at hcontra
      exact absurd hcontra (by decide)

theorem approveCommentsOf_congr (opts : Approve) (d1 d2 : FetchedData)
    (hbot : d2.botName = d1.botName)
    (hrc : d2.reviewComments = d1.reviewComments)
    (hrv : d2.reviews = d1.reviews)
    (hic : (d2.issueComments.map commentFromIssueComment).filter
        (approvalMatcher d1.botName opts.lgtmActsAsApprove
          opts.considerReviewState) =
      (d1.issueComments.map commentFromIssueComment).filter
        (approvalMatcher d1.botName opts.lgtmActsAsApprove
          opts.considerReviewState)) :
    approveCommentsOf opts d2 = approveCommentsOf opts d1 := by
  unfold approveCommentsOf unifiedSortedComments sortComments
  rw [hbot, hrc, hrv, filter_insertionSort, filter_insertionSort,
    List.filter_append, List.filter_append, List.filter_append,
    List.filter_append, hic]

/-! ## The human-override flag across an evaluation's own label mutations -/

theorem humanFindOut_absent (events : Except String (List ListedIssueEvent))
    (botName : String) :
    humanAddedApprovedFindOut false events botName = false := rfl

theorem humanFindOut_after_bot_add (evs : List ListedIssueEvent)
    (botName : String) :
    humanAddedApprovedFindOut true
      (.ok (evs ++ [⟨issueActionLabeled, labelsApproved, botName⟩])) botName =
      false := by
  simp [humanAddedApprovedFindOut, lastApprovedLabelAdd, List.filter_append,
    List.getLast?_concat, issueActionLabeled, labelsApproved]

theorem hasApprovedLabelOf_append_approved (ls : List Label) :
    hasApprovedLabelOf (ls ++ [⟨labelsApproved⟩]) = true := by
  simp [hasApprovedLabelOf]

theorem hasApprovedLabelOf_filter_out (ls : List Label) :
    hasApprovedLabelOf (ls.filter (fun l => !(l.name == labelsApproved))) =
      false := by
  simp only [hasApprovedLabelOf, List.any_filter]
  rw [List.any_eq_false]
  intro l hl
  cases h : (l.name == labelsApproved) <;> simp [h]

/-! ## The posted notification and its marker -/

theorem ciStartsWith_marker (tail : String) :
    ciStartsWith ("[" ++ approvalNotificationName ++ "] " ++ tail)
      ("[" ++ approvalNotificationName ++ "]") = true := by
  unfold ciStartsWith toUpperChars
  apply List.isPrefixOf_iff_prefix.mpr
  refine ⟨(" " ++ tail).data.map Char.toUpper, ?_⟩
  rw [← List.map_append]
  congr 1

theorem notificationMatcher_messageRender (botName : String) (ap : Approvers)
    (linkURL org repo branch commandURL newURL : String) (newId t2 : Nat) :
    notificationMatcher botName
      (commentFromIssueComment
        ⟨newId, messageRender ap linkURL org repo branch commandURL, botName,
          newURL, t2⟩) = true := by
  unfold notificationMatcher
  rw [if_neg (by
    rintro ⟨hne, -⟩
    exact hne rfl)]
  exact ciStartsWith_marker _

theorem updateNotification_some_shape (linkURL org repo branch commandURL : String)
    (ln : Option Comment) (ap : Approvers) (m : String)
    (h : updateNotification linkURL org repo branch commandURL ln ap = some m) :
    m = messageRender ap linkURL org repo branch commandURL := by
  unfold updateNotification getMessage at h
  cases ln with
  | none => exact (Option.some_inj.mp h).symm
  | some c =>
    by_cases hc : strContains c.body
        (messageRender ap linkURL org repo branch commandURL) = true
    · simp [hc] at h
    · simp [hc] at h
      exact h.symm

theorem updateNotification_contained (linkURL org repo branch commandURL : String)
    (ln : Comment) (ap : Approvers)
    (h : strContains ln.body
      (messageRender ap linkURL org repo branch commandURL) = true) :
    updateNotification linkURL org repo branch commandURL (some ln) ap = none := by
  simp [updateNotification, getMessage, h]

theorem notificationsOf_after_step (botName : String)
    (ics : List IssueComment) (n : IssueComment)
    (hn : notificationMatcher botName (commentFromIssueComment n) = true)
    (d : FetchedData)
    (hic : d.issueComments = (ics.filter (fun ic =>
      !(notificationMatcher botName (commentFromIssueComment ic)))) ++ [n])
    (hbot : d.botName = botName) :
    notificationsOf d = [commentFromIssueComment n] := by
  unfold notificationsOf
  rw [hic, hbot, List.map_append, List.filter_append]
  have h2 : (([n].map commentFromIssueComment).filter
      (notificationMatcher botName)) = [commentFromIssueComment n] := by
    simp [List.filter_cons, hn]
  have h1 : (((ics.filter (fun ic =>
      !(notificationMatcher botName (commentFromIssueComment ic)))).map
        commentFromIssueComment).filter (notificationMatcher botName)) = [] := by
    rw [List.filter_map, List.filter_filter]
    have : (ics.filter (fun ic =>
        (notificationMatcher botName ∘ commentFromIssueComment) ic &&
          !(notificationMatcher botName (commentFromIssueComment ic)))) = [] := by
      rw [List.filter_eq_nil_iff]
      intro ic hic2
      simp only [Function.comp_apply]
      cases h : notificationMatcher botName (commentFromIssueComment ic) <;>
        simp [h]
    rw [this]
    rfl
  rw [h1, h2, List.nil_append]

theorem approversSetup_congr (ownersData : List (String × List String))
    (filenames : List String) (opts : Approve) (pr : PRState)
    (hasL1 hasL2 : Bool) (ev1 ev2 : Except String (List ListedIssueEvent))
    (b : String)
    (hma : humanAddedApprovedFindOut hasL2 ev2 b =
      humanAddedApprovedFindOut hasL1 ev1 b) :
    approversSetup ownersData filenames opts pr hasL2 ev2 b =
      approversSetup ownersData filenames opts pr hasL1 ev1 b := by
  unfold approversSetup
  rw [hma]

theorem approversAfterAll_congr (ownersData : List (String × List String))
    (opts : Approve) (pr : PRState) (d1 d2 : FetchedData)
    (hch : d2.changes = d1.changes) (hbot : d2.botName = d1.botName)
    (hac : approveCommentsOf opts d2 = approveCommentsOf opts d1)
    (hma : humanAddedApprovedFindOut (hasApprovedLabelOf d2.issueLabels)
        d2.issueEvents d2.botName =
      humanAddedApprovedFindOut (hasApprovedLabelOf d1.issueLabels)
        d1.issueEvents d1.botName) :
    approversAfterAll ownersData opts pr d2 =
      approversAfterAll ownersData opts pr d1 := by
  rw [hbot] at hma
  unfold approversAfterAll
  rw [hch, hac, hbot, approversSetup_congr ownersData
    (d1.changes.map (fun c => c.filename)) opts pr
    (hasApprovedLabelOf d1.issueLabels) (hasApprovedLabelOf d2.issueLabels)
    d1.issueEvents d2.issueEvents d1.botName hma]

/-- C4: running the evaluation twice in succession, where the second run sees
exactly the first run's own mutations (posted notification, reconciled label
and its history event) and nothing else new, performs zero comment creations
and zero label mutations: the second run's message is suppressed (it is
contained in the notification the first run posted) and the label already
matches the verdict, so the second run issues no mutation at all. -/
theorem C4_idempotent (ownersData : List (String × List String))
    (linkURL commandURL : String) (opts : Approve) (pr : PRState)
    (changes : List PullRequestChange) (botName newURL : String)
    (w : World) (newId t2 : Nat) (out1 out2 : HandleOutput) (w2 : World)
    (hout1 : out1 = handleCore ownersData linkURL commandURL opts pr
      (fetchWorld w changes botName))
    (hw2 : w2 = stepWorld w out1 botName newURL newId t2)
    (hout2 : out2 = handleCore ownersData linkURL commandURL opts pr
      (fetchWorld w2 changes botName)) :
    out2.newMessage = none ∧ out2.mutations = [] := by
  have hA : out1.approversHandler =
      approversAfterAll ownersData opts pr (fetchWorld w changes botName) := by
    rw [hout1]
    rfl
  have hH : out1.hasApprovedLabel = hasApprovedLabelOf w.issueLabels := by
    rw [hout1]
    rfl
  have hM : out1.newMessage =
      updateNotification linkURL pr.org pr.repo pr.branch commandURL
        (notificationsOf (fetchWorld w changes botName)).getLast?
        (approversAfterAll ownersData opts pr (fetchWorld w changes botName)) := by
    rw [hout1]
    rfl
  have hw2ic : w2.issueComments =
      (match out1.newMessage with
       | none => w.issueComments
       | some m =>
         (w.issueComments.filter (fun ic =>
           !(notificationMatcher botName (commentFromIssueComment ic)))) ++
           [⟨newId, m, botName, newURL, t2⟩]) := by
    rw [hw2]
    rfl
  have hw2lb : w2.issueLabels =
      (if labelMutationOps out1.approversHandler.isApproved out1.hasApprovedLabel
          = [Mutation.addLabel labelsApproved] then
        w.issueLabels ++ [⟨labelsApproved⟩]
      else if labelMutationOps out1.approversHandler.isApproved
          out1.hasApprovedLabel = [Mutation.removeLabel labelsApproved] then
        w.issueLabels.filter (fun l => !(l.name == labelsApproved))
      else w.issueLabels) := by
    rw [hw2]
    rfl
  have hw2ev : w2.issueEvents =
      (if labelMutationOps out1.approversHandler.isApproved out1.hasApprovedLabel
          = [Mutation.addLabel labelsApproved] then
        w.issueEvents ++ [⟨issueActionLabeled, labelsApproved, botName⟩]
      else if labelMutationOps out1.approversHandler.isApproved
          out1.hasApprovedLabel = [Mutation.removeLabel labelsApproved] then
        w.issueEvents ++ [⟨"unlabeled", labelsApproved, botName⟩]
      else w.issueEvents) := by
    rw [hw2]
    rfl
  -- the label presence and override flag the second run observes
  have hkey : hasApprovedLabelOf w2.issueLabels =
        out1.approversHandler.isApproved ∧
      humanAddedApprovedFindOut (hasApprovedLabelOf w2.issueLabels)
          (.ok w2.issueEvents) botName =
        humanAddedApprovedFindOut (hasApprovedLabelOf w.issueLabels)
          (.ok w.issueEvents) botName := by
    cases hv : out1.approversHandler.isApproved <;>
      cases hh : out1.hasApprovedLabel
    · -- not approved, label absent: no mutation
      have hlops : labelMutationOps out1.approversHandler.isApproved
          out1.hasApprovedLabel = [] := by
        rw [hv, hh]
        rfl
      have hlb : w2.issueLabels = w.issueLabels := by
        rw [hw2lb, hlops]
        simp
      have hev : w2.issueEvents = w.issueEvents := by
        rw [hw2ev, hlops]
        simp
      rw [hlb, hev, ← hH, hh]
      exact ⟨rfl, rfl⟩
    · -- not approved, label present: label removed
      have hlops : labelMutationOps out1.approversHandler.isApproved
          out1.hasApprovedLabel = [Mutation.removeLabel labelsApproved] := by
        rw [hv, hh]
        rfl
      have hlb : w2.issueLabels =
          w.issueLabels.filter (fun l => !(l.name == labelsApproved)) := by
        rw [hw2lb, hlops]
        simp
      have hl2 : hasApprovedLabelOf w2.issueLabels = false := by
        rw [hlb]
        exact hasApprovedLabelOf_filter_out w.issueLabels
      have hMA1 : humanAddedApprovedFindOut (hasApprovedLabelOf w.issueLabels)
          (.ok w.issueEvents) botName = false := by
        have hma := manuallyApproved_approversAfterAll ownersData opts pr
          (fetchWorld w changes botName)
        rw [← hA] at hma
        have hv2 := hv
        unfold Approvers.isApproved at hv2
        have := (Bool.or_eq_false_iff.mp hv2).1
        rw [hma] at this
        exact this
      rw [hl2, hMA1]
      exact ⟨rfl, rfl⟩
    · -- approved, label absent: label added
      have hlops : labelMutationOps out1.approversHandler.isApproved
          out1.hasApprovedLabel = [Mutation.addLabel labelsApproved] := by
        rw [hv, hh]
        rfl
      have hlb : w2.issueLabels = w.issueLabels ++ [⟨labelsApproved⟩] := by
        rw [hw2lb, hlops]
        simp
      have hev : w2.issueEvents =
          w.issueEvents ++ [⟨issueActionLabeled, labelsApproved, botName⟩] := by
        rw [hw2ev, hlops]
        simp
      have hl2 : hasApprovedLabelOf w2.issueLabels = true := by
        rw [hlb]
        exact hasApprovedLabelOf_append_approved w.issueLabels
      rw [hl2, hev, humanFindOut_after_bot_add, ← hH, hh]
      exact ⟨rfl, rfl⟩
    · -- approved, label present: no mutation
      have hlops : labelMutationOps out1.approversHandler.isApproved
          out1.hasApprovedLabel = [] := by
        rw [hv, hh]
        rfl
      have hlb : w2.issueLabels = w.issueLabels := by
        rw [hw2lb, hlops]
        simp
      have hev : w2.issueEvents = w.issueEvents := by
        rw [hw2ev, hlops]
        simp
      rw [hlb, hev, ← hH, hh]
      exact ⟨rfl, rfl⟩
  -- the approval-relevant comment stream the second run sees is unchanged
  have hrc2 : w2.reviewComments = w.reviewComments := by
    rw [hw2]
    rfl
  have hrv2 : w2.reviews = w.reviews := by
    rw [hw2]
    rfl
  have hac : approveCommentsOf opts (fetchWorld w2 changes botName) =
      approveCommentsOf opts (fetchWorld w changes botName) := by
    refine approveCommentsOf_congr opts (fetchWorld w changes botName)
      (fetchWorld w2 changes botName) rfl hrc2 hrv2 ?_
    show ((w2.issueComments.map commentFromIssueComment).filter _) = _
    cases hm : out1.newMessage with
    | none =>
      have : w2.issueComments = w.issueComments := by rw [hw2ic, hm]
      rw [this]
      rfl
    | some m =>
      have : w2.issueComments =
          (w.issueComments.filter (fun ic =>
            !(notificationMatcher botName (commentFromIssueComment ic)))) ++
            [⟨newId, m, botName, newURL, t2⟩] := by rw [hw2ic, hm]
      rw [this]
      exact filtered_issueComments_stable botName opts.lgtmActsAsApprove
        opts.considerReviewState w.issueComments _ rfl
  -- hence the accumulated approver state is unchanged
  have hAA : approversAfterAll ownersData opts pr (fetchWorld w2 changes botName) =
      approversAfterAll ownersData opts pr (fetchWorld w changes botName) :=
    approversAfterAll_congr ownersData opts pr (fetchWorld w changes botName)
      (fetchWorld w2 changes botName) rfl rfl hac hkey.2
  -- the second run's message is suppressed
  have hM2 : out2.newMessage = none := by
    have hM2eq : out2.newMessage =
        updateNotification linkURL pr.org pr.repo pr.branch commandURL
          (notificationsOf (fetchWorld w2 changes botName)).getLast?
          (approversAfterAll ownersData opts pr (fetchWorld w2 changes botName)) := by
      rw [hout2]
      rfl
    cases hm : out1.newMessage with
    | none =>
      have hic : w2.issueComments = w.issueComments := by rw [hw2ic, hm]
      have hnots : notificationsOf (fetchWorld w2 changes botName) =
          notificationsOf (fetchWorld w changes botName) := by
        unfold notificationsOf
        rw [show (fetchWorld w2 changes botName).issueComments = w2.issueComments
          from rfl, hic]
        rfl
      rw [hM2eq, hnots, hAA, ← hM, hm]
    | some m =>
      have hmr : m = messageRender
          (approversAfterAll ownersData opts pr (fetchWorld w changes botName))
          linkURL pr.org pr.repo pr.branch commandURL := by
        apply updateNotification_some_shape linkURL pr.org pr.repo pr.branch
          commandURL (notificationsOf (fetchWorld w changes botName)).getLast?
        rw [← hM, hm]
      have hic : w2.issueComments =
          (w.issueComments.filter (fun ic =>
            !(notificationMatcher botName (commentFromIssueComment ic)))) ++
            [⟨newId, m, botName, newURL, t2⟩] := by rw [hw2ic, hm]
      have hn : notificationMatcher botName
          (commentFromIssueComment ⟨newId, m, botName, newURL, t2⟩) = true := by
        rw [hmr]
        exact notificationMatcher_messageRender botName _ linkURL pr.org pr.repo
          pr.branch commandURL newURL newId t2
      have hnots : notificationsOf (fetchWorld w2 changes botName) =
          [commentFromIssueComment ⟨newId, m, botName, newURL, t2⟩] :=
        notificationsOf_after_step botName w.issueComments _ hn _ hic rfl
      rw [hM2eq, hnots, hAA]
      apply updateNotification_contained
      show strContains m _ = true
      rw [hmr]
      exact strContains_self _
  refine ⟨hM2, ?_⟩
  -- and the label reconciliation is a no-op
  have hMu2 : out2.mutations =
      commentMutationOps out2.newMessage
        (notificationsOf (fetchWorld w2 changes botName)) ++
      labelMutationOps
        (approversAfterAll ownersData opts pr (fetchWorld w2 changes botName)).isApproved
        (hasApprovedLabelOf w2.issueLabels) := by
    rw [hout2]
    rfl
  rw [hMu2, hM2, hAA, show hasApprovedLabelOf w2.issueLabels =
      out1.approversHandler.isApproved from hkey.1, hA]
  show [] ++ labelMutationOps _ _ = []
  rw [List.nil_append]
  cases (approversAfterAll ownersData opts pr
    (fetchWorld w changes botName)).isApproved <;> rfl

/-- Witness for C4: a concrete second run — same PR, same single `/approve`
comment, the world updated only by the first run's own posted notification,
label and history event — creates no comment and touches no label. -/
theorem C4_witness :
    (handleCore [("", ["alice"])] "L" "C" {} ⟨"o", "r", "b", 1, "", "alice", [], "u"⟩
      (fetchWorld
        (stepWorld ⟨[⟨7, "/approve", "alice", "cu", 3⟩], [], [], [], []⟩
          (handleCore [("", ["alice"])] "L" "C" {}
            ⟨"o", "r", "b", 1, "", "alice", [], "u"⟩
            (fetchWorld ⟨[⟨7, "/approve", "alice", "cu", 3⟩], [], [], [], []⟩
              [⟨"f.go"⟩] "bot"))
          "bot" "nu" 9 5)
        [⟨"f.go"⟩] "bot")).newMessage = none ∧
    (handleCore [("", ["alice"])] "L" "C" {} ⟨"o", "r", "b", 1, "", "alice", [], "u"⟩
      (fetchWorld
        (stepWorld ⟨[⟨7, "/approve", "alice", "cu", 3⟩], [], [], [], []⟩
          (handleCore [("", ["alice"])] "L" "C" {}
            ⟨"o", "r", "b", 1, "", "alice", [], "u"⟩
            (fetchWorld ⟨[⟨7, "/approve", "alice", "cu", 3⟩], [], [], [], []⟩
              [⟨"f.go"⟩] "bot"))
          "bot" "nu" 9 5)
        [⟨"f.go"⟩] "bot")).mutations = [] :=
  C4_idempotent [("", ["alice"])] "L" "C" {} ⟨"o", "r", "b", 1, "", "alice", [], "u"⟩
    [⟨"f.go"⟩] "bot" "nu" ⟨[⟨7, "/approve", "alice", "cu", 3⟩], [], [], [], []⟩ 9 5
    _ _ _ rfl rfl rfl
